import Mathlib

/-!
# giant-chatops-slack-reader: the message parser

A shallow embedding of `pkg/messageparser/messageparser.go` and of the parts of
the Go standard library it calls (`strings.Contains`, `regexp.FindStringSubmatch`,
`regexp.Split`), followed by theorems about `ParseMessage`, `ParseConversationHistory`
and `getTags`.

Modelling conventions.

* A Go `string` is modelled by a Lean `String`, that is, by a sequence of Unicode
  scalar values.  This covers every valid UTF-8 string; on such strings the byte-wise
  substring test of `strings.Contains` and the rune-wise matching of `regexp` agree
  with their character-wise versions below.
* A position in a string is represented by the input that remains at that
  position (a suffix of the string); the slice between two positions `a` and `b`
  is `between a b`.
* The two patterns of the program only repeat single-character classes, so the
  pattern syntax `Node` has literals, greedy `+` and `*` over a class, and
  capture parentheses.  Matching is leftmost-first with greedy repetition, as in
  Go's `regexp` package.
* `fmt.Printf` calls only write to standard output and are left out.
-/

namespace Slack

/-- Go `slack.AttachmentField`: the two members the parser reads. -/
structure AttachmentField where
  Title : String
  Value : String
  deriving DecidableEq

/-- Go `slack.Attachment`: the three members the parser reads. -/
structure Attachment where
  Title : String
  TitleLink : String
  Fields : List AttachmentField
  deriving DecidableEq

/-- Go `slack.Msg`: the two members the parser reads. -/
structure Msg where
  Text : String
  Attachments : List Attachment
  deriving DecidableEq

/-- Go `slack.Message`, which embeds a `Msg`. -/
structure Message where
  Msg : Msg
  deriving DecidableEq

/-- Go `slack.GetConversationHistoryResponse`: the member the parser reads. -/
structure GetConversationHistoryResponse where
  Messages : List Message
  deriving DecidableEq

end Slack

namespace GoStrings

/-- Does the character sequence start with the given one (Go `strings.HasPrefix`). -/
def startsWith : List Char → List Char → Bool
  | _, [] => true
  | [], _ :: _ => false
  | c :: cs, p :: ps => c == p && startsWith cs ps

/-- Substring search on character sequences: is there a position of `s` at which
`substr` starts. -/
def containsChars : List Char → List Char → Bool
  | [], substr => substr.isEmpty
  | c :: cs, substr => startsWith (c :: cs) substr || containsChars cs substr

/-- Go `strings.Contains(s, substr)`. -/
def Contains (s substr : String) : Bool :=
  containsChars s.data substr.data

/-- Go `strings.Join(elems, sep)`. -/
def Join : List String → String → String
  | [], _ => ""
  | [a], _ => a
  | a :: b :: rest, sep => a ++ sep ++ Join (b :: rest) sep

end GoStrings

namespace GoRegexp

/-- A character class given by inclusive ranges, possibly negated. -/
structure CharClass where
  negated : Bool
  ranges : List (Char × Char)

/-- Membership of a character in a class. -/
def CharClass.test (cls : CharClass) (c : Char) : Bool :=
  cls.negated != cls.ranges.any (fun r => decide (r.1 ≤ c) && decide (c ≤ r.2))

/-- The pattern syntax used by the program: a pattern is a sequence of nodes. -/
inductive Node where
  | lit (c : Char)
  | plus (cls : CharClass)
  | star (cls : CharClass)
  | capOpen
  | capClose

/-- A compiled pattern. -/
abbrev Regexp := List Node

/-- The result of a successful match attempt: the positions recorded at the
capture parentheses passed so far, in pattern order, and the position at which
the match ends. -/
abbrev MatchState := List (List Char) × List Char

/-- Greedy repetition of a class, followed by the continuation `k`: the longest
repetition is tried first, shorter ones on failure of `k`. -/
def repeatGreedy (cls : CharClass) (k : List Char → Option MatchState) :
    List Char → Option MatchState
  | [] => k []
  | c :: cs =>
    if cls.test c then
      match repeatGreedy cls k cs with
      | some r => some r
      | none => k (c :: cs)
    else k (c :: cs)

/-- Match the pattern at the start of the input, leftmost-first. `marks` are the
capture positions recorded so far. -/
def matchAt : Regexp → List (List Char) → List Char → Option MatchState
  | [], marks, s => some (marks, s)
  | Node.lit c :: rest, marks, s =>
    match s with
    | [] => none
    | x :: xs => if x = c then matchAt rest marks xs else none
  | Node.plus cls :: rest, marks, s =>
    match s with
    | [] => none
    | x :: xs => if cls.test x then repeatGreedy cls (matchAt rest marks) xs else none
  | Node.star cls :: rest, marks, s => repeatGreedy cls (matchAt rest marks) s
  | Node.capOpen :: rest, marks, s => matchAt rest (marks ++ [s]) s
  | Node.capClose :: rest, marks, s => matchAt rest (marks ++ [s]) s

/-- The leftmost match at or after the current position: the position where it
starts together with its `MatchState`. -/
def search (re : Regexp) : List Char → Option (List Char × MatchState)
  | [] => (matchAt re [] []).map (fun r => ([], r))
  | c :: cs =>
    match matchAt re [] (c :: cs) with
    | some r => some (c :: cs, r)
    | none => search re cs

/-- The slice of the input between position `a` and the later position `b`. -/
def between (a b : List Char) : List Char :=
  a.take (a.length - b.length)

/-- The slices of the capture groups, from the recorded positions taken in
pairs (opening, closing). -/
def groups : List (List Char) → List String
  | a :: b :: rest => String.mk (between a b) :: groups rest
  | _ => []

/-- Go `(*Regexp).FindStringSubmatch`: the text of the leftmost match followed by
the texts of its capture groups; the empty (nil) slice when there is no match. -/
def FindStringSubmatch (re : Regexp) (s : String) : List String :=
  match search re s.data with
  | none => []
  | some (start, marks, stop) => String.mk (between start stop) :: groups marks

/-- The input stops the repetition of the class: it is empty or starts with a
character outside the class. -/
def stopsClass (cls : CharClass) : List Char → Prop
  | [] => True
  | y :: _ => cls.test y = false

/-- The loop of Go `(*Regexp).allMatches`, as run by `FindAllStringIndex` without a
limit on the number of matches: successive leftmost matches, each search starting
where the previous match ended. An empty match directly after the previous match
is not accepted, and after an empty match the position advances by one character.
`fuel` bounds the number of iterations; every iteration advances the position, so
`len(s) + 2` iterations always suffice. Each match is the pair of its start and
end positions. -/
def allMatches (re : Regexp) :
    Nat → List Char → Option (List Char) → List (List Char × List Char)
  | 0, _, _ => []
  | fuel + 1, pos, prevMatchEnd =>
    match search re pos with
    | none => []
    | some (m0, _, m1) =>
      if m1.length = pos.length then
        let accepted := if prevMatchEnd = some m0 then [] else [(m0, m1)]
        match pos with
        | [] => accepted
        | _ :: pos1 => accepted ++ allMatches re fuel pos1 (some m1)
      else
        (m0, m1) :: allMatches re fuel m1 (some m1)

/-- The state of the loop of Go `(*Regexp).Split`: the pieces so far and the
positions `beg` and `end`. -/
structure SplitState where
  strings : List String
  beg : List Char
  stop : List Char

/-- One iteration of the loop of `Split` (for a negative count `n`). -/
def splitStep (s : List Char) (st : SplitState) (m : List Char × List Char) : SplitState :=
  let stop := m.1
  let strings :=
    if m.2.length ≠ s.length then st.strings ++ [String.mk (between st.beg stop)]
    else st.strings
  { strings := strings, beg := m.2, stop := stop }

/-- The end of `Split`: the last piece is appended unless the last match started at
the end of the input. -/
def splitFinish (st : SplitState) : List String :=
  if st.stop.length ≠ 0 then st.strings ++ [String.mk st.beg] else st.strings

/-- Go `(*Regexp).Split(s, n)` for a negative count `n`: the pieces of `s` between
the matches of the pattern. -/
def Split (re : Regexp) (s : String) : List String :=
  if !re.isEmpty && s.data.isEmpty then [""]
  else
    let found := allMatches re (s.data.length + 2) s.data none
    splitFinish (found.foldl (splitStep s.data) { strings := [], beg := s.data, stop := s.data })

end GoRegexp

namespace Messageparser

open Slack GoStrings GoRegexp

/-- Go `ParseResult`; every member starts at its zero value. -/
structure ParseResult where
  IsAlert : Bool := false
  IsDone : Bool := false
  AlertName : String := ""
  Priority : String := ""
  InstallationName : String := ""
  InstallationPipeline : String := ""
  Provider : String := ""
  AffectsManagementCluster : Bool := false
  AffectsWorkloadCluster : Bool := false
  WorkloadClusterID : String := ""
  SlackChannelID : String := ""
  SlackChannelName : String := ""
  deriving DecidableEq

/-- A Go `error` value; `none` is `nil`. -/
abbrev GoError := Option String

/-- The class `[0-9]`. -/
def clsDigit : CharClass := ⟨false, [('0', '9')]⟩
/-- The class `[A-Za-z0-9]`. -/
def clsAlnum : CharClass := ⟨false, [('A', 'Z'), ('a', 'z'), ('0', '9')]⟩
/-- The class `[a-z]`. -/
def clsLower : CharClass := ⟨false, [('a', 'z')]⟩
/-- The class `[a-z0-9]`. -/
def clsLowerDigit : CharClass := ⟨false, [('a', 'z'), ('0', '9')]⟩
/-- The class `.`: every character except the line feed. -/
def clsDot : CharClass := ⟨true, [('\n', '\n')]⟩
/-- The class `\s`, which in Go is `[\t\n\f\r ]`. -/
def clsSpace : CharClass := ⟨false, [('\t', '\n'), ('\x0c', '\r'), (' ', ' ')]⟩

/-- The pattern `#[0-9]+: \[([A-Za-z0-9]+)\]: ([a-z]+) / ([a-z0-9]+) - (.+)`. -/
def titleRegex : Regexp :=
  [ Node.lit '#', Node.plus clsDigit, Node.lit ':', Node.lit ' ', Node.lit '[',
    Node.capOpen, Node.plus clsAlnum, Node.capClose,
    Node.lit ']', Node.lit ':', Node.lit ' ',
    Node.capOpen, Node.plus clsLower, Node.capClose,
    Node.lit ' ', Node.lit '/', Node.lit ' ',
    Node.capOpen, Node.plus clsLowerDigit, Node.capClose,
    Node.lit ' ', Node.lit '-', Node.lit ' ',
    Node.capOpen, Node.plus clsDot, Node.capClose ]

/-- The pattern `,\s*` of `getTags`. -/
def tagSeparator : Regexp :=
  [ Node.lit ',', Node.star clsSpace ]

/-- Go `getTags`: split at each comma together with the whitespace after it. -/
def getTags (longString : String) : List String :=
  Split tagSeparator longString

/-- Go `sliceContains`. -/
def sliceContains : List String → String → Bool
  | [], _ => false
  | piece :: rest, needle => if piece = needle then true else sliceContains rest needle

/-- The body of the loop over `attachment.Fields` in `ParseMessage`. -/
def processField (titleParts : List String) (result : ParseResult)
    (field : AttachmentField) : ParseResult :=
  if field.Title = "Priority" then
    { result with Priority := field.Value }
  else if field.Title = "Tags" then
    let tags := getTags field.Value
    let result :=
      if sliceContains tags "management_cluster" then
        { result with AffectsManagementCluster := true }
      else result
    let result :=
      if sliceContains tags "workload_cluster" then
        let result := { result with AffectsWorkloadCluster := true }
        if titleParts.length = 5 then
          { result with WorkloadClusterID := titleParts.getD 3 "" }
        else result
      else result
    let result :=
      if sliceContains tags "aws" then { result with Provider := "aws" }
      else if sliceContains tags "azure" then { result with Provider := "azure" }
      else if sliceContains tags "kvm" then { result with Provider := "kvm" }
      else result
    if sliceContains tags "stable" then { result with InstallationPipeline := "stable" }
    else if sliceContains tags "testing" then { result with InstallationPipeline := "testing" }
    else result
  else result

/-- The body of the loop over `message.Msg.Attachments` in `ParseMessage`. -/
def processAttachment (result : ParseResult) (attachment : Attachment) : ParseResult :=
  if Contains attachment.TitleLink "https://opsg.in/" then
    let result := { result with IsAlert := true }
    let titleParts := FindStringSubmatch titleRegex attachment.Title
    let result :=
      if titleParts.length = 5 then
        { result with
          InstallationName := titleParts.getD 2 ""
          AlertName := titleParts.getD 4 "" }
      else result
    attachment.Fields.foldl (processField titleParts) result
  else result

/-- Go `ParseMessage`. -/
def ParseMessage (message : Message) (doneString : String) : ParseResult × GoError :=
  let result : ParseResult := {}
  if Contains message.Msg.Text doneString then
    ({ result with IsDone := true }, none)
  else if message.Msg.Attachments.length = 0 then
    (result, none)
  else
    (message.Msg.Attachments.foldl processAttachment result, none)

/-- The loop of `ParseConversationHistory` over the messages that remain. -/
def scanMessages (doneString : String) : List Message → ParseResult × GoError
  | [] => ({}, none)
  | msg :: rest =>
    let res := (ParseMessage msg doneString).1
    if res.IsAlert then (res, none) else scanMessages doneString rest

/-- Go `ParseConversationHistory` (for a non-nil `history`). -/
def ParseConversationHistory (history : GetConversationHistoryResponse)
    (doneString : String) : ParseResult × GoError :=
  scanMessages doneString history.Messages

/-- The record after a `Tags` field, written as one update of `result`. -/
def tagsUpdate (titleParts tags : List String) (r : ParseResult) : ParseResult :=
  { r with
    AffectsManagementCluster :=
      if sliceContains tags "management_cluster" then true else r.AffectsManagementCluster
    AffectsWorkloadCluster :=
      if sliceContains tags "workload_cluster" then true else r.AffectsWorkloadCluster
    WorkloadClusterID :=
      if sliceContains tags "workload_cluster" = true ∧ titleParts.length = 5
      then titleParts.getD 3 "" else r.WorkloadClusterID
    Provider :=
      if sliceContains tags "aws" then "aws"
      else if sliceContains tags "azure" then "azure"
      else if sliceContains tags "kvm" then "kvm"
      else r.Provider
    InstallationPipeline :=
      if sliceContains tags "stable" then "stable"
      else if sliceContains tags "testing" then "testing"
      else r.InstallationPipeline }

/-- Does the attachment carry the Opsgenie marker in its title link: the test
of the loop over the attachments. -/
def isOpsgenie (a : Attachment) : Bool := Contains a.TitleLink "https://opsg.in/"

/-- Exactly one attachment of the message carries the Opsgenie marker in its
title link, namely `a`; the attachments before and after it do not. -/
def OnlyOpsgenie (message : Message) (a : Attachment) : Prop :=
  ∃ pre post : List Attachment,
    message.Msg.Attachments = pre ++ a :: post ∧
    (∀ x ∈ pre, ¬ ("https://opsg.in/" : String).data <:+: x.TitleLink.data) ∧
    ("https://opsg.in/" : String).data <:+: a.TitleLink.data ∧
    (∀ x ∈ post, ¬ ("https://opsg.in/" : String).data <:+: x.TitleLink.data)

/-- Exactly one field of the attachment is titled `Tags`, and its value is `value`;
it may stand anywhere in the list of fields. -/
def OnlyTags (a : Attachment) (value : String) : Prop :=
  ∃ before after : List AttachmentField,
    a.Fields = before ++ { Title := "Tags", Value := value } :: after ∧
    (∀ f ∈ before, f.Title ≠ "Tags") ∧ (∀ f ∈ after, f.Title ≠ "Tags")

/-- The value of the last field titled `Priority`, empty when there is none. -/
def lastPriority (fields : List AttachmentField) : String :=
  match (fields.filter (fun f => f.Title = "Priority")).getLast? with
  | some f => f.Value
  | none => ""

/-- The title pattern matches the title of an Opsgenie attachment among `atts`,
with `id` as its short-id group (the third group). -/
def ShortIdOf (atts : List Attachment) (id : String) : Prop :=
  ∃ a ∈ atts, ("https://opsg.in/" : String).data <:+: a.TitleLink.data ∧
    ∃ whole src inst name : String,
      FindStringSubmatch titleRegex a.Title = [whole, src, inst, id, name]

/-- The invariant of `WorkloadClusterID`: when it is set, the record is an alert
affecting a workload cluster and the id is the short-id group of a matched title of
an Opsgenie attachment among `atts`. -/
def ClusterIdInv (atts : List Attachment) (r : ParseResult) : Prop :=
  r.WorkloadClusterID ≠ "" →
    r.AffectsWorkloadCluster = true ∧ r.IsAlert = true ∧ ShortIdOf atts r.WorkloadClusterID

/-- A title of the expected shape, as a character sequence. -/
def titleChars (id src inst short name : List Char) : List Char :=
  '#' :: (id ++ ':' :: ' ' :: '[' :: (src ++ ']' :: ':' :: ' ' ::
    (inst ++ ' ' :: '/' :: ' ' :: (short ++ ' ' :: '-' :: ' ' :: name))))

/-- The five segments of a title are well formed: the id is made of decimal
digits, the source of ASCII letters and digits, the installation name of lowercase
letters, the short id of lowercase letters and digits, the alert name has no line
feed, and none is empty. -/
def TitleSegments (id src inst short name : List Char) : Prop :=
  (id ≠ [] ∧ ∀ c ∈ id, c.isDigit = true) ∧
  (src ≠ [] ∧ ∀ c ∈ src, c.isAlphanum = true) ∧
  (inst ≠ [] ∧ ∀ c ∈ inst, c.isLower = true) ∧
  (short ≠ [] ∧ ∀ c ∈ short, (c.isLower || c.isDigit) = true) ∧
  (name ≠ [] ∧ '\n' ∉ name)

/-- The title contains, somewhere, a text of the expected shape
`#id: [src]: inst / short - name`. -/
def ContainsTitleShape (title : String) : Prop :=
  ∃ pre id src inst short name tail : List Char,
    TitleSegments id src inst short name ∧
    title.data = pre ++ titleChars id src inst short name ++ tail

/-- The characters of the strings joined with `", "`. -/
def joinData : List String → List Char
  | [] => []
  | [a] => a.data
  | a :: b :: rest => a.data ++ ',' :: ' ' :: joinData (b :: rest)

/-- The matches of the separator pattern in `joinData tags`: one at each `", "`. -/
def separatorMatches : List String → List (List Char × List Char)
  | [] => []
  | [_] => []
  | _ :: b :: rest =>
    (',' :: ' ' :: joinData (b :: rest), joinData (b :: rest)) :: separatorMatches (b :: rest)

/-- The characters of the class `\s`. -/
def spaceChars : List Char := ['\t', '\n', '\x0c', '\r', ' ']

/-- The hypothesis on the tags: none contains a comma, none starts with a character
of the class `\s`. -/
def PlainTags (tags : List String) : Prop :=
  (∀ t ∈ tags, ',' ∉ t.data) ∧ (∀ t ∈ tags, ∀ c, t.data.head? = some c → c ∉ spaceChars)

/-- The record with `Priority` reset: what a field other than `Tags` cannot change. -/
def withoutPriority (r : ParseResult) : ParseResult := { r with Priority := "" }

/-- The record with which the loop over the fields of an Opsgenie attachment
starts, when the loop over the attachments reaches it with `result`. -/
def afterTitle (result : ParseResult) (titleParts : List String) : ParseResult :=
  if titleParts.length = 5 then
    { result with
      IsAlert := true
      InstallationName := titleParts.getD 2 ""
      AlertName := titleParts.getD 4 "" }
  else { result with IsAlert := true }

/-! ### The messages of `messageparser_test.go` -/

/-- The attachment of the test "Opsgenie alert message shared in channel". -/
def testAttachment : Attachment :=
  { Title := "#4865: [Prometheus]: anteater / anteater - PrometheusPersistentVolumeSpaceTooLow"
    TitleLink := "https://opsg.in/a/i/giantswarm/2e674f86-b131-42be-9f9c-3c68b49684af-1623336728751"
    Fields :=
      [ { Title := "Priority", Value := "P3" },
        { Title := "Tags"
          Value := "PrometheusPersistentVolumeSpaceTooLow, anteater, atlas, aws, management_cluster, page, stable" },
        { Title := "Routed Teams", Value := "atlas, alerts_router_team" } ] }

/-- The message of the test "Simple non-alert message". -/
def testPlainMessage : Message := { Msg := { Text := "Test message", Attachments := [] } }

/-- The message of the test "Message with done string". -/
def testDoneMessage : Message :=
  { Msg := { Text := "Test message [done]", Attachments := [] } }

/-- The message of the test "Opsgenie alert message shared in channel". -/
def testAlertMessage : Message := { Msg := { Text := "", Attachments := [testAttachment] } }

/-- The alert of the test with `workload_cluster` in place of `management_cluster`
among its tags. -/
def workloadAttachment : Attachment :=
  { testAttachment with
    Fields :=
      [ { Title := "Priority", Value := "P3" },
        { Title := "Tags"
          Value := "PrometheusPersistentVolumeSpaceTooLow, anteater, atlas, aws, workload_cluster, page, stable" } ] }

/-- A message carrying `workloadAttachment`. -/
def workloadMessage : Message :=
  { Msg := { Text := "", Attachments := [workloadAttachment] } }

/-- The alert of the test, sent with the done marker in its text. -/
def doneAlertMessage : Message :=
  { Msg := { Text := "Test message [done]", Attachments := [testAttachment] } }

/-- An Opsgenie attachment with a title the pattern does not match and no fields. -/
def bareAttachment : Attachment :=
  { Title := "Disk full", TitleLink := "https://opsg.in/a/i/giantswarm/0000", Fields := [] }

/-- A message with two Opsgenie attachments: the alert of the test, then
`bareAttachment`. -/
def twoAlertsMessage : Message :=
  { Msg := { Text := "", Attachments := [testAttachment, bareAttachment] } }

/-- The message `twoAlertsMessage` with only its last Opsgenie attachment. -/
def lastAlertMessage : Message :=
  { Msg := { Text := "", Attachments := [bareAttachment] } }

/-- The alert of the test with a digit in the installation name of its title. -/
def digitMessage : Message :=
  { Msg :=
    { Text := ""
      Attachments :=
        [ { testAttachment with
            Title :=
              "#4865: [Prometheus]: anteater2 / anteater - PrometheusPersistentVolumeSpaceTooLow" } ] } }

/-- The alert of the test with extra text before the `#` of its title. -/
def prefixedMessage : Message :=
  { Msg :=
    { Text := ""
      Attachments :=
        [ { testAttachment with
            Title :=
              "Alert #4865: [Prometheus]: anteater / anteater - PrometheusPersistentVolumeSpaceTooLow" } ] } }

/-- The alert of the test with a title that has no text of the expected shape. -/
def untitledMessage : Message :=
  { Msg := { Text := "", Attachments := [{ testAttachment with Title := "Disk full" }] } }

/-- The record has one of the known values, or none, as `Provider` and as
`InstallationPipeline`. -/
def ProviderPipelineOk (r : ParseResult) : Prop :=
  r.Provider ∈ ["", "aws", "azure", "kvm"] ∧ r.InstallationPipeline ∈ ["", "stable", "testing"]

/-- Every character of `InstallationName` is a lowercase letter. -/
def InstallationLower (r : ParseResult) : Prop :=
  ∀ c ∈ r.InstallationName.data, c.isLower = true

end Messageparser

/-! ## Substring search -/

namespace GoStrings

theorem startsWith_iff (s p : List Char) : startsWith s p = true ↔ p <+: s := by
  induction p generalizing s with
  | nil => simp [startsWith]
  | cons x xs ih =>
    cases s with
    | nil => simp [startsWith]
    | cons c cs =>
      simp only [startsWith, Bool.and_eq_true, beq_iff_eq, ih, List.cons_prefix_cons]
      constructor
      · rintro ⟨h1, h2⟩; exact ⟨h1.symm, h2⟩
      · rintro ⟨h1, h2⟩; exact ⟨h1.symm, h2⟩

theorem containsChars_iff (s sub : List Char) : containsChars s sub = true ↔ sub <:+: s := by
  induction s with
  | nil =>
    simp [containsChars, List.isEmpty_iff]
  | cons c cs ih =>
    simp only [containsChars, Bool.or_eq_true, startsWith_iff, ih]
    rw [List.infix_cons_iff]

/-- `Contains` is the substring relation on the characters of the two strings. -/
theorem Contains_iff (s sub : String) : Contains s sub = true ↔ sub.data <:+: s.data :=
  containsChars_iff _ _

theorem Contains_eq_false_iff (s sub : String) :
    Contains s sub = false ↔ ¬ sub.data <:+: s.data := by
  rw [← Contains_iff]; simp

end GoStrings

/-! ## Matching -/

namespace GoRegexp

@[simp] theorem matchAt_nil (marks : List (List Char)) (s : List Char) :
    matchAt [] marks s = some (marks, s) := rfl

@[simp] theorem matchAt_lit (c : Char) (rest : Regexp) (marks : List (List Char))
    (s : List Char) : matchAt (Node.lit c :: rest) marks (c :: s) = matchAt rest marks s := by
  simp [matchAt]

theorem matchAt_lit_ne (c x : Char) (rest : Regexp) (marks : List (List Char))
    (s : List Char) (h : x ≠ c) : matchAt (Node.lit c :: rest) marks (x :: s) = none := by
  simp [matchAt, h]

@[simp] theorem matchAt_lit_nil (c : Char) (rest : Regexp) (marks : List (List Char)) :
    matchAt (Node.lit c :: rest) marks [] = none := rfl

@[simp] theorem matchAt_capOpen (rest : Regexp) (marks : List (List Char)) (s : List Char) :
    matchAt (Node.capOpen :: rest) marks s = matchAt rest (marks ++ [s]) s := rfl

@[simp] theorem matchAt_capClose (rest : Regexp) (marks : List (List Char)) (s : List Char) :
    matchAt (Node.capClose :: rest) marks s = matchAt rest (marks ++ [s]) s := rfl

theorem repeatGreedy_stop (cls : CharClass) (k : List Char → Option MatchState)
    (ys : List Char) (hys : stopsClass cls ys) : repeatGreedy cls k ys = k ys := by
  cases ys with
  | nil => rfl
  | cons y ys =>
    have h : cls.test y = false := hys
    simp [repeatGreedy, h]

/-- Greedy repetition over a run of class characters: when the continuation
succeeds after the whole run, that is the match. -/
theorem repeatGreedy_run (cls : CharClass) (k : List Char → Option MatchState)
    (xs ys : List Char) (r : MatchState) (hxs : ∀ x ∈ xs, cls.test x = true)
    (hys : stopsClass cls ys) (hk : k ys = some r) :
    repeatGreedy cls k (xs ++ ys) = some r := by
  induction xs with
  | nil => rw [List.nil_append, repeatGreedy_stop cls k ys hys, hk]
  | cons x xs ih =>
    have hx : cls.test x = true := hxs x (List.mem_cons_self _ _)
    have ih2 := ih (fun z hz => hxs z (List.mem_cons_of_mem _ hz))
    simp [repeatGreedy, hx, ih2]

theorem matchAt_plus_run (cls : CharClass) (rest : Regexp) (marks : List (List Char))
    (xs ys : List Char) (r : MatchState) (hne : xs ≠ [])
    (hxs : ∀ x ∈ xs, cls.test x = true) (hys : stopsClass cls ys)
    (hk : matchAt rest marks ys = some r) :
    matchAt (Node.plus cls :: rest) marks (xs ++ ys) = some r := by
  cases xs with
  | nil => exact absurd rfl hne
  | cons x xs =>
    have hx : cls.test x = true := hxs x (List.mem_cons_self _ _)
    have h2 := repeatGreedy_run cls (matchAt rest marks) xs ys r
      (fun z hz => hxs z (List.mem_cons_of_mem _ hz)) hys hk
    simp [matchAt, hx, h2]

theorem between_append (xs b : List Char) : between (xs ++ b) b = xs := by
  simp [between]

theorem between_nil (xs : List Char) : between xs [] = xs := by
  simp [between]

theorem search_of_matchAt (re : Regexp) (c : Char) (cs : List Char) (r : MatchState)
    (h : matchAt re [] (c :: cs) = some r) : search re (c :: cs) = some (c :: cs, r) := by
  simp [search, h]

theorem matchAt_lit_inv (c : Char) (rest : Regexp) (marks : List (List Char))
    (s : List Char) (r : MatchState) (h : matchAt (Node.lit c :: rest) marks s = some r) :
    ∃ t, s = c :: t ∧ matchAt rest marks t = some r := by
  cases s with
  | nil => simp at h
  | cons x xs =>
    by_cases hx : x = c
    · rw [hx, matchAt_lit] at h
      exact ⟨xs, by rw [hx], h⟩
    · rw [matchAt_lit_ne c x rest marks xs hx] at h
      exact absurd h (by simp)

/-- A successful greedy repetition consumed a run of class characters, after which
the continuation succeeded. -/
theorem repeatGreedy_inv (cls : CharClass) (k : List Char → Option MatchState)
    (s : List Char) (r : MatchState) (h : repeatGreedy cls k s = some r) :
    ∃ xs t, (∀ x ∈ xs, cls.test x = true) ∧ s = xs ++ t ∧ k t = some r := by
  induction s with
  | nil => exact ⟨[], [], by simp, rfl, h⟩
  | cons c cs ih =>
    unfold repeatGreedy at h
    by_cases hc : cls.test c = true
    · rw [if_pos hc] at h
      cases hrec : repeatGreedy cls k cs with
      | some r1 =>
        rw [hrec] at h
        have hr : r1 = r := Option.some.inj h
        obtain ⟨xs, t, hx, e, hk⟩ := ih (hr ▸ hrec)
        refine ⟨c :: xs, t, ?_, by rw [e]; rfl, hk⟩
        intro x hxm
        rcases List.mem_cons.mp hxm with e1 | e1
        · rw [e1]; exact hc
        · exact hx x e1
      | none =>
        rw [hrec] at h
        exact ⟨[], c :: cs, by simp, rfl, h⟩
    · rw [if_neg hc] at h
      exact ⟨[], c :: cs, by simp, rfl, h⟩

theorem matchAt_plus_inv (cls : CharClass) (rest : Regexp) (marks : List (List Char))
    (s : List Char) (r : MatchState) (h : matchAt (Node.plus cls :: rest) marks s = some r) :
    ∃ xs t, xs ≠ [] ∧ (∀ x ∈ xs, cls.test x = true) ∧ s = xs ++ t ∧
      matchAt rest marks t = some r := by
  cases s with
  | nil => exact absurd h (by simp [matchAt])
  | cons x xs =>
    by_cases hx : cls.test x = true
    · have h2 : repeatGreedy cls (matchAt rest marks) xs = some r := by
        simpa [matchAt, hx] using h
      obtain ⟨ys, t, hys, e, hk⟩ := repeatGreedy_inv cls _ xs r h2
      refine ⟨x :: ys, t, by simp, ?_, by rw [e]; rfl, hk⟩
      intro z hz
      rcases List.mem_cons.mp hz with e1 | e1
      · rw [e1]; exact hx
      · exact hys z e1
    · exact absurd h (by simp [matchAt, hx])

/-- A match found by `search` starts at a position of the input and is a match of
the pattern at that position. -/
theorem search_inv (re : Regexp) (s start : List Char) (r : MatchState)
    (h : search re s = some (start, r)) :
    ∃ pre, s = pre ++ start ∧ matchAt re [] start = some r := by
  induction s with
  | nil =>
    unfold search at h
    cases hm : matchAt re [] [] with
    | none => rw [hm] at h; exact absurd h (by simp)
    | some r1 =>
      rw [hm] at h
      simp only [Option.map_some', Option.some.injEq, Prod.mk.injEq] at h
      exact ⟨[], by rw [← h.1]; rfl, by rw [← h.1, ← h.2]; exact hm⟩
  | cons c cs ih =>
    unfold search at h
    cases hm : matchAt re [] (c :: cs) with
    | none =>
      rw [hm] at h
      obtain ⟨pre, e, hk⟩ := ih h
      exact ⟨c :: pre, by rw [e]; rfl, hk⟩
    | some r1 =>
      rw [hm] at h
      simp only [Option.some.injEq, Prod.mk.injEq] at h
      exact ⟨[], by rw [← h.1]; rfl, by rw [← h.1, ← h.2]; exact hm⟩

end GoRegexp

/-! ## The loop bodies, member by member -/

namespace Messageparser

open Slack GoStrings GoRegexp

theorem sliceContains_iff (haystack : List String) (needle : String) :
    sliceContains haystack needle = true ↔ needle ∈ haystack := by
  induction haystack with
  | nil => simp [sliceContains]
  | cons piece rest ih =>
    by_cases h : piece = needle
    · simp [sliceContains, h]
    · have h2 : ¬ needle = piece := fun e => h e.symm
      simp [sliceContains, h, h2, ih]

theorem priority_ne_tags : ¬ ("Tags" : String) = "Priority" := by decide

theorem processField_other (tp : List String) (r : ParseResult) (f : AttachmentField)
    (h1 : f.Title ≠ "Priority") (h2 : f.Title ≠ "Tags") : processField tp r f = r := by
  simp [processField, h1, h2]

theorem processField_priority (tp : List String) (r : ParseResult) (f : AttachmentField)
    (h1 : f.Title = "Priority") : processField tp r f = { r with Priority := f.Value } := by
  simp [processField, h1]

theorem tagsBlock_eq (b1 b2 b3 b4 b5 b6 b7 : Bool) (c : Prop) (d : Decidable c)
    (id3 : String) (r : ParseResult) :
    (let result : ParseResult :=
      if b1 then { r with AffectsManagementCluster := true } else r
     let result : ParseResult :=
      if b2 then
        let result := { result with AffectsWorkloadCluster := true }
        if c then { result with WorkloadClusterID := id3 } else result
      else result
     let result : ParseResult :=
      if b3 then { result with Provider := "aws" }
      else if b4 then { result with Provider := "azure" }
      else if b5 then { result with Provider := "kvm" }
      else result
     if b6 then { result with InstallationPipeline := "stable" }
     else if b7 then { result with InstallationPipeline := "testing" }
     else result) =
    { r with
      AffectsManagementCluster := if b1 then true else r.AffectsManagementCluster
      AffectsWorkloadCluster := if b2 then true else r.AffectsWorkloadCluster
      WorkloadClusterID := if b2 = true ∧ c then id3 else r.WorkloadClusterID
      Provider :=
        if b3 then "aws" else if b4 then "azure" else if b5 then "kvm" else r.Provider
      InstallationPipeline :=
        if b6 then "stable" else if b7 then "testing" else r.InstallationPipeline } := by
  cases d <;>
  cases b1 <;> cases b2 <;> cases b3 <;> cases b4 <;> cases b5 <;> cases b6 <;> cases b7 <;>
  rfl

theorem processField_tags (tp : List String) (r : ParseResult) (f : AttachmentField)
    (h2 : f.Title = "Tags") : processField tp r f = tagsUpdate tp (getTags f.Value) r := by
  have h1 : ¬ f.Title = "Priority" := by rw [h2]; decide
  unfold processField tagsUpdate
  rw [if_neg h1, if_pos h2]
  exact tagsBlock_eq _ _ _ _ _ _ _ _ _ _ r

/-- The three shapes of one iteration of the loop over the fields. -/
theorem processField_cases (tp : List String) (r : ParseResult) (f : AttachmentField) :
    (f.Title = "Priority" ∧ processField tp r f = { r with Priority := f.Value }) ∨
    (f.Title = "Tags" ∧ processField tp r f = tagsUpdate tp (getTags f.Value) r) ∨
    (f.Title ≠ "Priority" ∧ f.Title ≠ "Tags" ∧ processField tp r f = r) := by
  by_cases h1 : f.Title = "Priority"
  · exact Or.inl ⟨h1, processField_priority tp r f h1⟩
  · by_cases h2 : f.Title = "Tags"
    · exact Or.inr (Or.inl ⟨h2, processField_tags tp r f h2⟩)
    · exact Or.inr (Or.inr ⟨h1, h2, processField_other tp r f h1 h2⟩)

theorem processField_IsAlert (tp : List String) (r : ParseResult) (f : AttachmentField) :
    (processField tp r f).IsAlert = r.IsAlert := by
  rcases processField_cases tp r f with ⟨_, h⟩ | ⟨_, h⟩ | ⟨_, _, h⟩ <;> (rw [h]; try rfl)

theorem processField_IsDone (tp : List String) (r : ParseResult) (f : AttachmentField) :
    (processField tp r f).IsDone = r.IsDone := by
  rcases processField_cases tp r f with ⟨_, h⟩ | ⟨_, h⟩ | ⟨_, _, h⟩ <;> (rw [h]; try rfl)

theorem processField_AlertName (tp : List String) (r : ParseResult) (f : AttachmentField) :
    (processField tp r f).AlertName = r.AlertName := by
  rcases processField_cases tp r f with ⟨_, h⟩ | ⟨_, h⟩ | ⟨_, _, h⟩ <;> (rw [h]; try rfl)

theorem processField_InstallationName (tp : List String) (r : ParseResult)
    (f : AttachmentField) : (processField tp r f).InstallationName = r.InstallationName := by
  rcases processField_cases tp r f with ⟨_, h⟩ | ⟨_, h⟩ | ⟨_, _, h⟩ <;> (rw [h]; try rfl)

theorem processField_SlackChannelID (tp : List String) (r : ParseResult)
    (f : AttachmentField) : (processField tp r f).SlackChannelID = r.SlackChannelID := by
  rcases processField_cases tp r f with ⟨_, h⟩ | ⟨_, h⟩ | ⟨_, _, h⟩ <;> (rw [h]; try rfl)

theorem processField_SlackChannelName (tp : List String) (r : ParseResult)
    (f : AttachmentField) : (processField tp r f).SlackChannelName = r.SlackChannelName := by
  rcases processField_cases tp r f with ⟨_, h⟩ | ⟨_, h⟩ | ⟨_, _, h⟩ <;> (rw [h]; try rfl)

theorem processField_Priority (tp : List String) (r : ParseResult) (f : AttachmentField) :
    (processField tp r f).Priority = if f.Title = "Priority" then f.Value else r.Priority := by
  rcases processField_cases tp r f with ⟨h1, h⟩ | ⟨h2, h⟩ | ⟨h1, _, h⟩
  · rw [h, if_pos h1]
  · have h1 : ¬ f.Title = "Priority" := by rw [h2]; decide
    rw [h, if_neg h1]; rfl
  · rw [h, if_neg h1]

/-! ## The title pattern -/

theorem clsDigit_test (c : Char) : clsDigit.test c = c.isDigit := by
  simp [CharClass.test, clsDigit, Char.isDigit, Char.le_def]

theorem clsLower_test (c : Char) : clsLower.test c = c.isLower := by
  simp [CharClass.test, clsLower, Char.isLower, Char.le_def]

theorem clsAlnum_test (c : Char) : clsAlnum.test c = c.isAlphanum := by
  simp [CharClass.test, clsAlnum, Char.isAlphanum, Char.isAlpha, Char.isUpper, Char.isLower,
    Char.isDigit, Char.le_def, Bool.or_assoc]

theorem clsLowerDigit_test (c : Char) :
    clsLowerDigit.test c = (c.isLower || c.isDigit) := by
  simp [CharClass.test, clsLowerDigit, Char.isLower, Char.isDigit, Char.le_def]

theorem clsDot_test (c : Char) : clsDot.test c = true ↔ c ≠ '\n' := by
  simp [CharClass.test, clsDot]

/-- The pattern matches a title of the expected shape from its first character,
with the four segments as groups. -/
theorem matchAt_titleChars (id src inst short name : List Char)
    (hid : id ≠ [] ∧ ∀ c ∈ id, c.isDigit = true)
    (hsrc : src ≠ [] ∧ ∀ c ∈ src, c.isAlphanum = true)
    (hinst : inst ≠ [] ∧ ∀ c ∈ inst, c.isLower = true)
    (hshort : short ≠ [] ∧ ∀ c ∈ short, (c.isLower || c.isDigit) = true)
    (hname : name ≠ [] ∧ '\n' ∉ name) :
    matchAt titleRegex [] (titleChars id src inst short name) =
      some ([src ++ ']' :: ':' :: ' ' ::
               (inst ++ ' ' :: '/' :: ' ' :: (short ++ ' ' :: '-' :: ' ' :: name)),
             ']' :: ':' :: ' ' ::
               (inst ++ ' ' :: '/' :: ' ' :: (short ++ ' ' :: '-' :: ' ' :: name)),
             inst ++ ' ' :: '/' :: ' ' :: (short ++ ' ' :: '-' :: ' ' :: name),
             ' ' :: '/' :: ' ' :: (short ++ ' ' :: '-' :: ' ' :: name),
             short ++ ' ' :: '-' :: ' ' :: name,
             ' ' :: '-' :: ' ' :: name,
             name, []], []) := by
  unfold titleRegex titleChars
  rw [matchAt_lit]
  apply matchAt_plus_run _ _ _ _ _ _ hid.1
    (fun c hc => by rw [clsDigit_test]; exact hid.2 c hc) (by show clsDigit.test ':' = false; decide)
  simp only [matchAt_lit, matchAt_capOpen, List.nil_append]
  apply matchAt_plus_run _ _ _ _ _ _ hsrc.1
    (fun c hc => by rw [clsAlnum_test]; exact hsrc.2 c hc) (by show clsAlnum.test ']' = false; decide)
  simp only [matchAt_lit, matchAt_capOpen, matchAt_capClose, List.cons_append, List.nil_append]
  apply matchAt_plus_run _ _ _ _ _ _ hinst.1
    (fun c hc => by rw [clsLower_test]; exact hinst.2 c hc) (by show clsLower.test ' ' = false; decide)
  simp only [matchAt_lit, matchAt_capOpen, matchAt_capClose, List.cons_append, List.nil_append]
  apply matchAt_plus_run _ _ _ _ _ _ hshort.1
    (fun c hc => by rw [clsLowerDigit_test]; exact hshort.2 c hc)
    (by show clsLowerDigit.test ' ' = false; decide)
  simp only [matchAt_lit, matchAt_capOpen, matchAt_capClose, List.cons_append, List.nil_append]
  have hrun := matchAt_plus_run clsDot [Node.capClose]
    [src ++ ']' :: ':' :: ' ' ::
       (inst ++ ' ' :: '/' :: ' ' :: (short ++ ' ' :: '-' :: ' ' :: name)),
     ']' :: ':' :: ' ' ::
       (inst ++ ' ' :: '/' :: ' ' :: (short ++ ' ' :: '-' :: ' ' :: name)),
     inst ++ ' ' :: '/' :: ' ' :: (short ++ ' ' :: '-' :: ' ' :: name),
     ' ' :: '/' :: ' ' :: (short ++ ' ' :: '-' :: ' ' :: name),
     short ++ ' ' :: '-' :: ' ' :: name,
     ' ' :: '-' :: ' ' :: name,
     name] name [] _ hname.1
    (fun c hc => (clsDot_test c).mpr (fun e => hname.2 (e ▸ hc))) trivial rfl
  rw [List.append_nil] at hrun
  exact hrun

/-- `FindStringSubmatch` on a title of the expected shape: the whole title and its
four segments. -/
theorem FindStringSubmatch_title (id src inst short name : String)
    (hid : id.data ≠ [] ∧ ∀ c ∈ id.data, c.isDigit = true)
    (hsrc : src.data ≠ [] ∧ ∀ c ∈ src.data, c.isAlphanum = true)
    (hinst : inst.data ≠ [] ∧ ∀ c ∈ inst.data, c.isLower = true)
    (hshort : short.data ≠ [] ∧ ∀ c ∈ short.data, (c.isLower || c.isDigit) = true)
    (hname : name.data ≠ [] ∧ '\n' ∉ name.data) :
    FindStringSubmatch titleRegex
        ("#" ++ id ++ ": [" ++ src ++ "]: " ++ inst ++ " / " ++ short ++ " - " ++ name) =
      ["#" ++ id ++ ": [" ++ src ++ "]: " ++ inst ++ " / " ++ short ++ " - " ++ name,
        src, inst, short, name] := by
  have hdata : ("#" ++ id ++ ": [" ++ src ++ "]: " ++ inst ++ " / " ++ short ++ " - "
      ++ name).data = titleChars id.data src.data inst.data short.data name.data := by
    simp [titleChars]
  have hm := matchAt_titleChars id.data src.data inst.data short.data name.data
    hid hsrc hinst hshort hname
  unfold FindStringSubmatch
  rw [hdata]
  have hs := search_of_matchAt titleRegex '#' _ _ hm
  unfold titleChars at hs ⊢
  rw [hs]
  simp only [groups, between_nil]
  have e1 := between_append src.data (']' :: ':' :: ' ' ::
    (inst.data ++ ' ' :: '/' :: ' ' :: (short.data ++ ' ' :: '-' :: ' ' :: name.data)))
  have e2 := between_append inst.data
    (' ' :: '/' :: ' ' :: (short.data ++ ' ' :: '-' :: ' ' :: name.data))
  have e3 := between_append short.data (' ' :: '-' :: ' ' :: name.data)
  rw [e1, e2, e3]
  have e0 : ("#" ++ id ++ ": [" ++ src ++ "]: " ++ inst ++ " / " ++ short ++ " - " ++ name)
      = String.mk (titleChars id.data src.data inst.data short.data name.data) := by
    rw [← hdata]
  rw [e0]
  rfl

/-- A match of the title pattern at a position: the input there has the expected
shape, and the groups are its segments. -/
theorem matchAt_titleRegex_inv (s : List Char) (marks : List (List Char))
    (stop : List Char) (h : matchAt titleRegex [] s = some (marks, stop)) :
    ∃ id src inst short name : List Char,
      TitleSegments id src inst short name ∧
      s = titleChars id src inst short name ++ stop ∧
      groups marks = [String.mk src, String.mk inst, String.mk short, String.mk name] := by
  unfold titleRegex at h
  obtain ⟨t0, rfl, k1⟩ := matchAt_lit_inv _ _ _ _ _ h
  clear h
  obtain ⟨id, t1, hid1, hid2, rfl, k2⟩ := matchAt_plus_inv _ _ _ _ _ k1
  clear k1
  obtain ⟨t2, rfl, k3⟩ := matchAt_lit_inv _ _ _ _ _ k2
  clear k2
  obtain ⟨t3, rfl, k4⟩ := matchAt_lit_inv _ _ _ _ _ k3
  clear k3
  obtain ⟨t4, rfl, k5⟩ := matchAt_lit_inv _ _ _ _ _ k4
  clear k4
  rw [matchAt_capOpen] at k5
  obtain ⟨src, t5, hsrc1, hsrc2, rfl, k6⟩ := matchAt_plus_inv _ _ _ _ _ k5
  clear k5
  rw [matchAt_capClose] at k6
  obtain ⟨t6, rfl, k7⟩ := matchAt_lit_inv _ _ _ _ _ k6
  clear k6
  obtain ⟨t7, rfl, k8⟩ := matchAt_lit_inv _ _ _ _ _ k7
  clear k7
  obtain ⟨t8, rfl, k9⟩ := matchAt_lit_inv _ _ _ _ _ k8
  clear k8
  rw [matchAt_capOpen] at k9
  obtain ⟨inst, t9, hinst1, hinst2, rfl, k10⟩ := matchAt_plus_inv _ _ _ _ _ k9
  clear k9
  rw [matchAt_capClose] at k10
  obtain ⟨t10, rfl, k11⟩ := matchAt_lit_inv _ _ _ _ _ k10
  clear k10
  obtain ⟨t11, rfl, k12⟩ := matchAt_lit_inv _ _ _ _ _ k11
  clear k11
  obtain ⟨t12, rfl, k13⟩ := matchAt_lit_inv _ _ _ _ _ k12
  clear k12
  rw [matchAt_capOpen] at k13
  obtain ⟨short, t13, hshort1, hshort2, rfl, k14⟩ := matchAt_plus_inv _ _ _ _ _ k13
  clear k13
  rw [matchAt_capClose] at k14
  obtain ⟨t14, rfl, k15⟩ := matchAt_lit_inv _ _ _ _ _ k14
  clear k14
  obtain ⟨t15, rfl, k16⟩ := matchAt_lit_inv _ _ _ _ _ k15
  clear k15
  obtain ⟨t16, rfl, k17⟩ := matchAt_lit_inv _ _ _ _ _ k16
  clear k16
  rw [matchAt_capOpen] at k17
  obtain ⟨name, t17, hname1, hname2, rfl, k18⟩ := matchAt_plus_inv _ _ _ _ _ k17
  clear k17
  rw [matchAt_capClose, matchAt_nil] at k18
  simp only [Option.some.injEq, Prod.mk.injEq] at k18
  obtain ⟨hmarks, rfl⟩ := k18
  refine ⟨id, src, inst, short, name, ⟨⟨hid1, ?_⟩, ⟨hsrc1, ?_⟩, ⟨hinst1, ?_⟩, ⟨hshort1, ?_⟩,
    ⟨hname1, ?_⟩⟩, ?_, ?_⟩
  · intro c hc; rw [← clsDigit_test]; exact hid2 c hc
  · intro c hc; rw [← clsAlnum_test]; exact hsrc2 c hc
  · intro c hc; rw [← clsLower_test]; exact hinst2 c hc
  · intro c hc; rw [← clsLowerDigit_test]; exact hshort2 c hc
  · intro hc; exact (clsDot_test '\n').mp (hname2 _ hc) rfl
  · simp [titleChars]
  · rw [← hmarks]
    simp only [List.nil_append, List.cons_append, groups, between_append]

/-- `FindStringSubmatch` with the title pattern returns either nothing or the first
text of the expected shape and its four segments. -/
theorem FindStringSubmatch_titleRegex_cases (title : String) :
    FindStringSubmatch titleRegex title = [] ∨
    ∃ pre id src inst short name tail : List Char,
      TitleSegments id src inst short name ∧
      title.data = pre ++ titleChars id src inst short name ++ tail ∧
      FindStringSubmatch titleRegex title =
        [String.mk (titleChars id src inst short name), String.mk src, String.mk inst,
          String.mk short, String.mk name] := by
  unfold FindStringSubmatch
  cases hs : search titleRegex title.data with
  | none => exact Or.inl rfl
  | some found =>
    obtain ⟨start, marks, stop⟩ := found
    obtain ⟨pre, e, hm⟩ := search_inv titleRegex _ _ _ hs
    obtain ⟨id, src, inst, short, name, hseg, es, hg⟩ := matchAt_titleRegex_inv _ _ _ hm
    refine Or.inr ⟨pre, id, src, inst, short, name, stop, hseg, ?_, ?_⟩
    · rw [e, es, List.append_assoc]
    · simp only [hg, es, between_append]

theorem FindStringSubmatch_titleRegex_none (title : String) (h : ¬ ContainsTitleShape title) :
    FindStringSubmatch titleRegex title = [] := by
  rcases FindStringSubmatch_titleRegex_cases title with h0 | ⟨pre, id, src, inst, short, name,
    tail, hseg, e, _⟩
  · exact h0
  · exact absurd ⟨pre, id, src, inst, short, name, tail, hseg, e⟩ h

/-! ## The loops -/

theorem foldl_processField_IsAlert (tp : List String) (fs : List AttachmentField)
    (r : ParseResult) : (fs.foldl (processField tp) r).IsAlert = r.IsAlert := by
  induction fs generalizing r with
  | nil => rfl
  | cons f fs ih => rw [List.foldl_cons, ih, processField_IsAlert]

theorem foldl_processField_IsDone (tp : List String) (fs : List AttachmentField)
    (r : ParseResult) : (fs.foldl (processField tp) r).IsDone = r.IsDone := by
  induction fs generalizing r with
  | nil => rfl
  | cons f fs ih => rw [List.foldl_cons, ih, processField_IsDone]

theorem foldl_processField_AlertName (tp : List String) (fs : List AttachmentField)
    (r : ParseResult) : (fs.foldl (processField tp) r).AlertName = r.AlertName := by
  induction fs generalizing r with
  | nil => rfl
  | cons f fs ih => rw [List.foldl_cons, ih, processField_AlertName]

theorem foldl_processField_InstallationName (tp : List String) (fs : List AttachmentField)
    (r : ParseResult) :
    (fs.foldl (processField tp) r).InstallationName = r.InstallationName := by
  induction fs generalizing r with
  | nil => rfl
  | cons f fs ih => rw [List.foldl_cons, ih, processField_InstallationName]

theorem processAttachment_skip (r : ParseResult) (a : Attachment)
    (h : isOpsgenie a = false) : processAttachment r a = r := by
  unfold isOpsgenie at h
  simp [processAttachment, h]

theorem processAttachment_IsAlert (r : ParseResult) (a : Attachment) :
    (processAttachment r a).IsAlert = (r.IsAlert || isOpsgenie a) := by
  unfold processAttachment isOpsgenie
  cases h : Contains a.TitleLink "https://opsg.in/"
  · simp
  · simp only [if_true, foldl_processField_IsAlert]
    split_ifs <;> simp

theorem processAttachment_IsDone (r : ParseResult) (a : Attachment) :
    (processAttachment r a).IsDone = r.IsDone := by
  unfold processAttachment
  cases h : Contains a.TitleLink "https://opsg.in/"
  · simp
  · simp only [if_true, foldl_processField_IsDone]
    split_ifs <;> rfl

theorem foldl_processAttachment_skip (atts : List Attachment) (r : ParseResult)
    (h : ∀ a ∈ atts, isOpsgenie a = false) : atts.foldl processAttachment r = r := by
  induction atts generalizing r with
  | nil => rfl
  | cons a atts ih =>
    rw [List.foldl_cons, processAttachment_skip r a (h a (List.mem_cons_self _ _))]
    exact ih r (fun x hx => h x (List.mem_cons_of_mem _ hx))

theorem foldl_processAttachment_IsAlert (atts : List Attachment) (r : ParseResult) :
    (atts.foldl processAttachment r).IsAlert = (r.IsAlert || atts.any isOpsgenie) := by
  induction atts generalizing r with
  | nil => simp
  | cons a atts ih =>
    rw [List.foldl_cons, ih, processAttachment_IsAlert, List.any_cons, Bool.or_assoc]

theorem foldl_processAttachment_IsDone (atts : List Attachment) (r : ParseResult) :
    (atts.foldl processAttachment r).IsDone = r.IsDone := by
  induction atts generalizing r with
  | nil => rfl
  | cons a atts ih => rw [List.foldl_cons, ih, processAttachment_IsDone]

/-- With exactly one Opsgenie attachment, only that attachment contributes. -/
theorem foldl_processAttachment_single (pre post : List Attachment) (a : Attachment)
    (r : ParseResult) (hpre : ∀ x ∈ pre, isOpsgenie x = false)
    (hpost : ∀ x ∈ post, isOpsgenie x = false) :
    (pre ++ a :: post).foldl processAttachment r = processAttachment r a := by
  rw [List.foldl_append, List.foldl_cons, foldl_processAttachment_skip pre r hpre,
    foldl_processAttachment_skip post _ hpost]

theorem ParseMessage_done (m : Message) (d : String) (h : Contains m.Msg.Text d = true) :
    ParseMessage m d = ({ IsDone := true }, none) := by
  simp [ParseMessage, h]

theorem ParseMessage_not_done (m : Message) (d : String)
    (h : Contains m.Msg.Text d = false) :
    ParseMessage m d = (m.Msg.Attachments.foldl processAttachment {}, none) := by
  unfold ParseMessage
  simp only [h, Bool.false_eq_true, if_false]
  split_ifs with h0
  · rw [List.length_eq_zero] at h0
    rw [h0]; rfl
  · rfl

theorem ParseMessage_snd (m : Message) (d : String) : (ParseMessage m d).2 = none := by
  cases h : Contains m.Msg.Text d
  · rw [ParseMessage_not_done m d h]
  · rw [ParseMessage_done m d h]

theorem scanMessages_snd (d : String) (ms : List Message) :
    (scanMessages d ms).2 = none := by
  induction ms with
  | nil => rfl
  | cons m ms ih =>
    unfold scanMessages
    simp only []
    split_ifs
    · rfl
    · exact ih

theorem scanMessages_find (d : String) (ms : List Message) :
    scanMessages d ms =
      match ms.find? (fun m => (ParseMessage m d).1.IsAlert) with
      | some m => ParseMessage m d
      | none => ({}, none) := by
  induction ms with
  | nil => rfl
  | cons m ms ih =>
    unfold scanMessages
    simp only [List.find?_cons]
    cases h : (ParseMessage m d).1.IsAlert
    · simpa using ih
    · simp only [if_true]
      exact Prod.ext rfl (ParseMessage_snd m d).symm

theorem processAttachment_opsgenie (r : ParseResult) (a : Attachment)
    (h : isOpsgenie a = true) :
    processAttachment r a =
      a.Fields.foldl (processField (FindStringSubmatch titleRegex a.Title))
        (afterTitle r (FindStringSubmatch titleRegex a.Title)) := by
  unfold isOpsgenie at h
  unfold processAttachment afterTitle
  rw [if_pos h]

/-- With the done marker absent and exactly one Opsgenie attachment `a`, the result
is that of the loop over the fields of `a`. -/
theorem ParseMessage_single (message : Message) (d : String) (a : Attachment)
    (hdone : ¬ d.data <:+: message.Msg.Text.data) (ha : OnlyOpsgenie message a) :
    (ParseMessage message d).1 =
      a.Fields.foldl (processField (FindStringSubmatch titleRegex a.Title))
        (afterTitle {} (FindStringSubmatch titleRegex a.Title)) := by
  obtain ⟨pre, post, hatts, hpre, hmark, hpost⟩ := ha
  rw [ParseMessage_not_done message d ((Contains_eq_false_iff _ _).mpr hdone), hatts]
  show (pre ++ a :: post).foldl processAttachment {} = _
  rw [foldl_processAttachment_single pre post a {}
      (fun x hx => (Contains_eq_false_iff _ _).mpr (hpre x hx))
      (fun x hx => (Contains_eq_false_iff _ _).mpr (hpost x hx))]
  exact processAttachment_opsgenie {} a ((Contains_iff _ _).mpr hmark)

/-- A field not titled `Tags` changes at most `Priority`. -/
theorem processField_noTags (tp : List String) (r : ParseResult) (f : AttachmentField)
    (h : f.Title ≠ "Tags") :
    withoutPriority (processField tp r f) = withoutPriority r := by
  rcases processField_cases tp r f with ⟨_, e⟩ | ⟨h2, _⟩ | ⟨_, _, e⟩
  · rw [e]; rfl
  · exact absurd h2 h
  · rw [e]

theorem foldl_processField_noTags (tp : List String) (fs : List AttachmentField)
    (r : ParseResult) (h : ∀ f ∈ fs, f.Title ≠ "Tags") :
    withoutPriority (fs.foldl (processField tp) r) = withoutPriority r := by
  induction fs generalizing r with
  | nil => rfl
  | cons f fs ih =>
    rw [List.foldl_cons, ih (processField tp r f) (fun x hx => h x (List.mem_cons_of_mem _ hx)),
      processField_noTags tp r f (h f (List.mem_cons_self _ _))]

theorem withoutPriority_tagsUpdate (tp tags : List String) (r : ParseResult) :
    withoutPriority (tagsUpdate tp tags r) = tagsUpdate tp tags (withoutPriority r) := rfl

/-- With exactly one `Tags` field, the loop over the fields is one `tagsUpdate` of
the starting record, up to `Priority`. -/
theorem foldl_processField_onlyTags (tp : List String) (a : Attachment) (value : String)
    (r : ParseResult) (h : OnlyTags a value) :
    withoutPriority (a.Fields.foldl (processField tp) r) =
      withoutPriority (tagsUpdate tp (getTags value) r) := by
  obtain ⟨f1, f2, hf, h1, h2⟩ := h
  rw [hf, List.foldl_append, List.foldl_cons, foldl_processField_noTags tp f2 _ h2,
    processField_tags tp _ { Title := "Tags", Value := value } rfl,
    withoutPriority_tagsUpdate, foldl_processField_noTags tp f1 r h1]
  rfl

theorem foldl_processField_Priority (tp : List String) (fs : List AttachmentField)
    (r : ParseResult) :
    (fs.foldl (processField tp) r).Priority =
      match (fs.filter (fun f => f.Title = "Priority")).getLast? with
      | some f => f.Value
      | none => r.Priority := by
  induction fs generalizing r with
  | nil => rfl
  | cons f fs ih =>
    rw [List.foldl_cons, ih, processField_Priority]
    by_cases hp : f.Title = "Priority"
    · simp only [List.filter_cons, hp, decide_True, if_true]
      cases hl : (fs.filter (fun f => decide (f.Title = "Priority"))).getLast? with
      | none =>
        rw [List.getLast?_eq_none_iff] at hl
        simp [hl]
      | some g =>
        have hne : fs.filter (fun f => decide (f.Title = "Priority")) ≠ [] := by
          intro e; rw [e] at hl; simp at hl
        obtain ⟨x, xs, hx⟩ := List.exists_cons_of_ne_nil hne
        rw [hx] at hl ⊢
        rw [List.getLast?_cons_cons, hl]
    · simp only [List.filter_cons, hp, decide_False, if_false]
      rfl

theorem afterTitle_fields (r : ParseResult) (tp : List String) :
    (afterTitle r tp).IsAlert = true ∧ (afterTitle r tp).IsDone = r.IsDone ∧
    (afterTitle r tp).Priority = r.Priority ∧ (afterTitle r tp).Provider = r.Provider ∧
    (afterTitle r tp).InstallationPipeline = r.InstallationPipeline ∧
    (afterTitle r tp).AffectsManagementCluster = r.AffectsManagementCluster ∧
    (afterTitle r tp).AffectsWorkloadCluster = r.AffectsWorkloadCluster ∧
    (afterTitle r tp).WorkloadClusterID = r.WorkloadClusterID := by
  unfold afterTitle
  split_ifs <;> exact ⟨rfl, rfl, rfl, rfl, rfl, rfl, rfl, rfl⟩

/-! ## Splitting a joined list of tags -/

theorem char_eq_of_toNat (c d : Char) (h : c.val.toNat = d.val.toNat) : c = d := by
  apply Char.ext
  exact UInt32.ext (by simpa [UInt32.toNat] using h)

theorem clsSpace_test_mem (c : Char) (h : clsSpace.test c = true) : c ∈ spaceChars := by
  simp only [CharClass.test, clsSpace, List.any_cons, List.any_nil, Char.le_def,
    UInt32.le_def] at h
  simp [BitVec.le_def] at h
  have e1 : ('\t' : Char).val.toNat = 9 := rfl
  have e2 : ('\n' : Char).val.toNat = 10 := rfl
  have e3 : ('\x0c' : Char).val.toNat = 12 := rfl
  have e4 : ('\r' : Char).val.toNat = 13 := rfl
  have e5 : (' ' : Char).val.toNat = 32 := rfl
  simp only [spaceChars, List.mem_cons, List.mem_singleton, List.not_mem_nil, or_false]
  have hv : c.val.toNat = c.val.toBitVec.toNat := rfl
  have k : c.val.toNat = 9 ∨ c.val.toNat = 10 ∨ c.val.toNat = 12 ∨ c.val.toNat = 13 ∨
      c.val.toNat = 32 := by omega
  rcases k with k | k | k | k | k
  · exact Or.inl (char_eq_of_toNat _ _ (k.trans e1.symm))
  · exact Or.inr (Or.inl (char_eq_of_toNat _ _ (k.trans e2.symm)))
  · exact Or.inr (Or.inr (Or.inl (char_eq_of_toNat _ _ (k.trans e3.symm))))
  · exact Or.inr (Or.inr (Or.inr (Or.inl (char_eq_of_toNat _ _ (k.trans e4.symm)))))
  · exact Or.inr (Or.inr (Or.inr (Or.inr (char_eq_of_toNat _ _ (k.trans e5.symm)))))

theorem clsSpace_test_not_mem (c : Char) (h : c ∉ spaceChars) : clsSpace.test c = false := by
  cases ht : clsSpace.test c
  · rfl
  · exact absurd (clsSpace_test_mem c ht) h

theorem Join_data (tags : List String) : (Join tags ", ").data = joinData tags := by
  induction tags with
  | nil => rfl
  | cons a rest ih =>
    cases rest with
    | nil => rfl
    | cons b rest =>
      simp only [Join, joinData, String.data_append, ih]
      simp

/-- The separator pattern does not match at a character other than the comma. -/
theorem matchAt_separator_ne (c : Char) (cs : List Char) (h : c ≠ ',') :
    matchAt tagSeparator [] (c :: cs) = none :=
  matchAt_lit_ne ',' c _ [] cs h

theorem search_separator_skip (x rest : List Char) (hx : ∀ c ∈ x, c ≠ ',') :
    search tagSeparator (x ++ rest) = search tagSeparator rest := by
  induction x with
  | nil => rfl
  | cons c x ih =>
    have hc : c ≠ ',' := hx c (List.mem_cons_self _ _)
    rw [List.cons_append, search, matchAt_separator_ne c _ hc]
    exact ih (fun z hz => hx z (List.mem_cons_of_mem _ hz))

theorem search_separator_none (x : List Char) (hx : ∀ c ∈ x, c ≠ ',') :
    search tagSeparator x = none := by
  have h := search_separator_skip x [] hx
  rw [List.append_nil] at h
  rw [h]
  rfl

theorem search_separator_at (rest : List Char) (hrest : stopsClass clsSpace rest) :
    search tagSeparator (',' :: ' ' :: rest) = some (',' :: ' ' :: rest, [], rest) := by
  apply search_of_matchAt
  unfold tagSeparator
  rw [matchAt_lit]
  show repeatGreedy clsSpace (matchAt [] []) ([' '] ++ rest) = some ([], rest)
  apply repeatGreedy_run clsSpace _ [' '] rest _ _ hrest rfl
  intro c hc
  rw [List.mem_singleton] at hc
  rw [hc]
  decide

theorem PlainTags_tail (t : String) (tags : List String) (h : PlainTags (t :: tags)) :
    PlainTags tags :=
  ⟨fun x hx => h.1 x (List.mem_cons_of_mem _ hx), fun x hx => h.2 x (List.mem_cons_of_mem _ hx)⟩

theorem stopsClass_joinData (tags : List String) (h : PlainTags tags) :
    stopsClass clsSpace (joinData tags) := by
  have key : ∀ (t : String) (tail : List Char), t ∈ tags →
      stopsClass clsSpace (',' :: tail) → stopsClass clsSpace (t.data ++ ',' :: tail) := by
    intro t tail ht htail
    cases hd : t.data with
    | nil => exact htail
    | cons c cs =>
      exact clsSpace_test_not_mem c (h.2 t ht c (by rw [hd]; rfl))
  cases tags with
  | nil => trivial
  | cons a rest =>
    cases rest with
    | nil =>
      show stopsClass clsSpace a.data
      cases hd : a.data with
      | nil => trivial
      | cons c cs =>
        exact clsSpace_test_not_mem c (h.2 a (List.mem_cons_self _ _) c (by rw [hd]; rfl))
    | cons b rest =>
      exact key a _ (List.mem_cons_self _ _) (by show clsSpace.test ',' = false; decide)

theorem allMatches_joinData (tags : List String) (h : PlainTags tags) (fuel : Nat)
    (hfuel : tags.length ≤ fuel) (prev : Option (List Char)) :
    allMatches tagSeparator fuel (joinData tags) prev = separatorMatches tags := by
  induction tags generalizing fuel prev with
  | nil =>
    cases fuel with
    | zero => rfl
    | succ n =>
      simp only [allMatches, joinData, separatorMatches]
      rw [search_separator_none [] (by simp)]
  | cons a rest ih =>
    have ha : ∀ c ∈ a.data, c ≠ ',' := fun c hc e =>
      h.1 a (List.mem_cons_self _ _) (e ▸ hc)
    cases rest with
    | nil =>
      cases fuel with
      | zero => rfl
      | succ n =>
        simp only [allMatches, joinData, separatorMatches]
        rw [search_separator_none a.data ha]
    | cons b rest =>
      cases fuel with
      | zero => simp at hfuel
      | succ n =>
        have htail := PlainTags_tail a _ h
        have hs : search tagSeparator (joinData (a :: b :: rest)) =
            some (',' :: ' ' :: joinData (b :: rest), [], joinData (b :: rest)) := by
          show search tagSeparator (a.data ++ ',' :: ' ' :: joinData (b :: rest)) = _
          rw [search_separator_skip a.data _ ha]
          exact search_separator_at _ (stopsClass_joinData _ htail)
        have hlen : ¬ (joinData (b :: rest)).length = (joinData (a :: b :: rest)).length := by
          show ¬ (joinData (b :: rest)).length =
            (a.data ++ ',' :: ' ' :: joinData (b :: rest)).length
          simp only [List.length_append, List.length_cons]
          omega
        have hrec := ih htail n (by simpa using hfuel) (some (joinData (b :: rest)))
        simp only [allMatches, hs, hlen, if_false, separatorMatches, hrec]

theorem length_le_joinData (tags : List String) :
    tags.length ≤ (joinData tags).length + 1 := by
  induction tags with
  | nil => simp
  | cons a rest ih =>
    cases rest with
    | nil => simp
    | cons b rest =>
      simp only [joinData, List.length_append, List.length_cons] at ih ⊢
      omega

theorem foldl_splitStep_joinData (s : List Char) (tags : List String) (hne : tags ≠ [])
    (st : SplitState) (hbeg : st.beg = joinData tags)
    (hlen : (joinData tags).length ≤ s.length) (hstop : st.stop.length ≠ 0) :
    splitFinish ((separatorMatches tags).foldl (splitStep s) st) = st.strings ++ tags := by
  induction tags generalizing st with
  | nil => exact absurd rfl hne
  | cons a rest ih =>
    cases rest with
    | nil =>
      simp only [separatorMatches, List.foldl_nil, splitFinish, hstop, ne_eq, not_false_eq_true,
        if_true, hbeg, joinData]
    | cons b rest =>
      have hlt : (joinData (b :: rest)).length < s.length := by
        have : (joinData (a :: b :: rest)).length =
            a.data.length + ((joinData (b :: rest)).length + 1 + 1) := by
          simp [joinData]
        omega
      have hstep : splitStep s st (',' :: ' ' :: joinData (b :: rest), joinData (b :: rest)) =
          { strings := st.strings ++ [a], beg := joinData (b :: rest),
            stop := ',' :: ' ' :: joinData (b :: rest) } := by
        have hb : between st.beg (',' :: ' ' :: joinData (b :: rest)) = a.data := by
          rw [hbeg]; exact between_append _ _
        simp only [splitStep, hb, ne_eq, Nat.ne_of_lt hlt, not_false_eq_true, if_true]
      rw [separatorMatches, List.foldl_cons, hstep]
      rw [ih (by simp) _ rfl (Nat.le_of_lt hlt) (by simp)]
      simp

theorem getTags_Join (tags : List String) (hne : tags ≠ []) (h : PlainTags tags) :
    getTags (Join tags ", ") = tags := by
  unfold getTags Split
  rw [Join_data]
  by_cases hempty : (joinData tags).isEmpty = true
  · have hnil : joinData tags = [] := List.isEmpty_iff.mp hempty
    have hre : tagSeparator.isEmpty = false := rfl
    simp only [hre, hempty, Bool.not_false, Bool.and_self, if_true]
    match tags, hne, hnil with
    | [a], _, hnil =>
      have : a = "" := by
        cases a with
        | mk d => simp only [joinData] at hnil; rw [hnil]
      rw [this]
    | a :: b :: rest, _, hnil => simp [joinData] at hnil
  · have hre : tagSeparator.isEmpty = false := rfl
    simp only [hre, hempty, Bool.not_false, Bool.true_and, Bool.false_eq_true, if_false]
    rw [allMatches_joinData tags h _
      (Nat.le_trans (length_le_joinData tags) (Nat.le_succ _)) none]
    have hstop : (joinData tags).length ≠ 0 := by
      intro e
      exact hempty (List.isEmpty_iff.mpr (List.length_eq_zero.mp e))
    have hf := foldl_splitStep_joinData (joinData tags) tags hne
      { strings := [], beg := joinData tags, stop := joinData tags } rfl (Nat.le_refl _) hstop
    simp only [List.nil_append] at hf
    exact hf

/-! ## The invariant of `WorkloadClusterID` -/

theorem length_five (l : List String) (h : l.length = 5) :
    ∃ whole src inst name : String, l = [whole, src, inst, l.getD 3 "", name] := by
  match l, h with
  | [w, s, i, x, n], _ => exact ⟨w, s, i, n, rfl⟩

theorem tagsUpdate_inv (atts : List Attachment) (tp tags : List String) (r : ParseResult)
    (hr : ClusterIdInv atts r) (ha : r.IsAlert = true)
    (htp : tp.length = 5 → ShortIdOf atts (tp.getD 3 "")) :
    ClusterIdInv atts (tagsUpdate tp tags r) := by
  intro hne
  simp only [tagsUpdate] at hne ⊢
  by_cases hw : sliceContains tags "workload_cluster" = true
  · by_cases h5 : tp.length = 5
    · simp only [hw, h5, and_self, if_true]
      exact ⟨trivial, ha, htp h5⟩
    · simp only [hw, h5, and_false, if_false, if_true] at hne ⊢
      exact ⟨trivial, ha, (hr hne).2.2⟩
  · simp only [hw, false_and, if_false] at hne ⊢
    exact hr hne

theorem processField_inv (atts : List Attachment) (tp : List String) (r : ParseResult)
    (f : AttachmentField) (hr : ClusterIdInv atts r) (ha : r.IsAlert = true)
    (htp : tp.length = 5 → ShortIdOf atts (tp.getD 3 "")) :
    ClusterIdInv atts (processField tp r f) := by
  rcases processField_cases tp r f with ⟨_, e⟩ | ⟨_, e⟩ | ⟨_, _, e⟩
  · rw [e]; exact hr
  · rw [e]; exact tagsUpdate_inv atts tp _ r hr ha htp
  · rw [e]; exact hr

theorem foldl_processField_inv (atts : List Attachment) (tp : List String)
    (fs : List AttachmentField) (r : ParseResult) (hr : ClusterIdInv atts r)
    (ha : r.IsAlert = true) (htp : tp.length = 5 → ShortIdOf atts (tp.getD 3 "")) :
    ClusterIdInv atts (fs.foldl (processField tp) r) := by
  induction fs generalizing r with
  | nil => exact hr
  | cons f fs ih =>
    rw [List.foldl_cons]
    exact ih _ (processField_inv atts tp r f hr ha htp)
      (by rw [processField_IsAlert]; exact ha)

theorem afterTitle_inv (atts : List Attachment) (tp : List String) (r : ParseResult)
    (hr : ClusterIdInv atts r) : ClusterIdInv atts (afterTitle r tp) := by
  have hf := afterTitle_fields r tp
  intro hne
  rw [hf.2.2.2.2.2.2.2] at hne ⊢
  rw [hf.2.2.2.2.2.2.1]
  exact ⟨(hr hne).1, hf.1, (hr hne).2.2⟩

theorem processAttachment_inv (atts : List Attachment) (r : ParseResult) (a : Attachment)
    (hmem : a ∈ atts) (hr : ClusterIdInv atts r) :
    ClusterIdInv atts (processAttachment r a) := by
  cases h : isOpsgenie a
  · rw [processAttachment_skip r a h]; exact hr
  · rw [processAttachment_opsgenie r a h]
    apply foldl_processField_inv atts _ _ _ (afterTitle_inv atts _ r hr)
      (afterTitle_fields r _).1
    intro h5
    obtain ⟨w, s, i, n, e⟩ := length_five _ h5
    exact ⟨a, hmem, (Contains_iff _ _).mp h, w, s, i, n, e⟩

theorem foldl_processAttachment_inv (atts : List Attachment) (as : List Attachment)
    (r : ParseResult) (hsub : ∀ a ∈ as, a ∈ atts) (hr : ClusterIdInv atts r) :
    ClusterIdInv atts (as.foldl processAttachment r) := by
  induction as generalizing r with
  | nil => exact hr
  | cons a as ih =>
    rw [List.foldl_cons]
    exact ih _ (fun x hx => hsub x (List.mem_cons_of_mem _ hx))
      (processAttachment_inv atts r a (hsub a (List.mem_cons_self _ _)) hr)

theorem ParseMessage_inv (message : Message) (d : String) :
    ClusterIdInv message.Msg.Attachments (ParseMessage message d).1 := by
  cases h : Contains message.Msg.Text d
  · rw [ParseMessage_not_done message d h]
    exact foldl_processAttachment_inv _ _ _ (fun _ hx => hx) (fun hne => absurd rfl hne)
  · rw [ParseMessage_done message d h]
    exact fun hne => absurd rfl hne

/-! ## Further facts about the loops -/

theorem Contains_empty (s : String) : Contains s "" = true := by
  unfold Contains
  cases s.data with
  | nil => rfl
  | cons c cs => rfl

theorem scanMessages_cons (d : String) (m : Message) (rest : List Message) :
    scanMessages d (m :: rest) =
      if (ParseMessage m d).1.IsAlert = true then ((ParseMessage m d).1, none)
      else scanMessages d rest := rfl

theorem scanMessages_cons_done (d : String) (m : Message) (rest : List Message)
    (h : Contains m.Msg.Text d = true) : scanMessages d (m :: rest) = scanMessages d rest := by
  rw [scanMessages_cons, ParseMessage_done m d h]
  rfl

theorem scanMessages_remove_done (d : String) (h1 h2 : List Message) (m : Message)
    (h : Contains m.Msg.Text d = true) :
    scanMessages d (h1 ++ m :: h2) = scanMessages d (h1 ++ h2) := by
  induction h1 with
  | nil => exact scanMessages_cons_done d m h2 h
  | cons x xs ih =>
    rw [List.cons_append, List.cons_append, scanMessages_cons, scanMessages_cons, ih]

theorem scanMessages_filter_done (d : String) (ms : List Message) :
    scanMessages d (ms.filter (fun m => !Contains m.Msg.Text d)) = scanMessages d ms := by
  induction ms with
  | nil => rfl
  | cons x xs ih =>
    cases hx : Contains x.Msg.Text d
    · rw [List.filter_cons_of_pos (by simp [hx]), scanMessages_cons, scanMessages_cons, ih]
    · rw [List.filter_cons_of_neg (by simp [hx]), scanMessages_cons_done d x xs hx, ih]

theorem ParseMessage_IsDone_of_IsAlert (m : Message) (d : String)
    (h : (ParseMessage m d).1.IsAlert = true) : (ParseMessage m d).1.IsDone = false := by
  cases hc : Contains m.Msg.Text d
  · rw [ParseMessage_not_done m d hc]
    exact foldl_processAttachment_IsDone _ _
  · rw [ParseMessage_done m d hc] at h
    exact absurd h (by decide)

theorem scanMessages_IsDone (d : String) (ms : List Message) :
    (scanMessages d ms).1.IsDone = false := by
  induction ms with
  | nil => rfl
  | cons x xs ih =>
    rw [scanMessages_cons]
    by_cases hx : (ParseMessage x d).1.IsAlert = true
    · rw [if_pos hx]
      exact ParseMessage_IsDone_of_IsAlert x d hx
    · rw [if_neg hx]
      exact ih

theorem processAttachment_other_field (r : ParseResult) (title link : String)
    (before after : List AttachmentField) (f : AttachmentField)
    (h1 : f.Title ≠ "Priority") (h2 : f.Title ≠ "Tags") :
    processAttachment r { Title := title, TitleLink := link, Fields := before ++ f :: after } =
      processAttachment r { Title := title, TitleLink := link, Fields := before ++ after } := by
  unfold processAttachment
  simp only [List.foldl_append, List.foldl_cons, processField_other _ _ f h1 h2]

theorem foldl_processField_WorkloadClusterID (tp : List String) (fs : List AttachmentField)
    (r : ParseResult) (h5 : ¬ tp.length = 5) :
    (fs.foldl (processField tp) r).WorkloadClusterID = r.WorkloadClusterID := by
  induction fs generalizing r with
  | nil => rfl
  | cons f fs ih =>
    rw [List.foldl_cons, ih]
    rcases processField_cases tp r f with ⟨_, e⟩ | ⟨_, e⟩ | ⟨_, _, e⟩
    · rw [e]
    · rw [e]; simp [tagsUpdate, h5]
    · rw [e]

theorem foldl_processField_Priority_some (tp : List String) (fs : List AttachmentField)
    (r : ParseResult) (h : ∃ f ∈ fs, f.Title = "Priority") :
    (fs.foldl (processField tp) r).Priority = lastPriority fs := by
  rw [foldl_processField_Priority]
  unfold lastPriority
  obtain ⟨f, hf, ht⟩ := h
  have hmem : f ∈ fs.filter (fun f => decide (f.Title = "Priority")) :=
    List.mem_filter.mpr ⟨hf, by simp [ht]⟩
  cases hl : (fs.filter (fun f => decide (f.Title = "Priority"))).getLast? with
  | none =>
    rw [List.getLast?_eq_none_iff] at hl
    rw [hl] at hmem
    exact absurd hmem (List.not_mem_nil _)
  | some g => rfl

theorem foldl_processField_Priority_none (tp : List String) (fs : List AttachmentField)
    (r : ParseResult) (h : ∀ f ∈ fs, f.Title ≠ "Priority") :
    (fs.foldl (processField tp) r).Priority = r.Priority := by
  induction fs generalizing r with
  | nil => rfl
  | cons f fs ih =>
    rw [List.foldl_cons, ih _ (fun x hx => h x (List.mem_cons_of_mem _ hx)),
      processField_Priority, if_neg (h f (List.mem_cons_self _ _))]

/-! ## The values of `Provider` and `InstallationPipeline` -/

theorem tagsUpdate_ok (tp tags : List String) (r : ParseResult) (h : ProviderPipelineOk r) :
    ProviderPipelineOk (tagsUpdate tp tags r) := by
  unfold ProviderPipelineOk tagsUpdate at *
  constructor
  · simp only []
    split_ifs
    · simp
    · simp
    · simp
    · exact h.1
  · simp only []
    split_ifs
    · simp
    · simp
    · exact h.2

theorem processField_ok (tp : List String) (r : ParseResult) (f : AttachmentField)
    (h : ProviderPipelineOk r) : ProviderPipelineOk (processField tp r f) := by
  rcases processField_cases tp r f with ⟨_, e⟩ | ⟨_, e⟩ | ⟨_, _, e⟩
  · rw [e]; exact h
  · rw [e]; exact tagsUpdate_ok tp _ r h
  · rw [e]; exact h

theorem foldl_processField_ok (tp : List String) (fs : List AttachmentField)
    (r : ParseResult) (h : ProviderPipelineOk r) :
    ProviderPipelineOk (fs.foldl (processField tp) r) := by
  induction fs generalizing r with
  | nil => exact h
  | cons f fs ih => rw [List.foldl_cons]; exact ih _ (processField_ok tp r f h)

theorem afterTitle_ok (tp : List String) (r : ParseResult) (h : ProviderPipelineOk r) :
    ProviderPipelineOk (afterTitle r tp) := by
  have hf := afterTitle_fields r tp
  unfold ProviderPipelineOk
  rw [hf.2.2.2.1, hf.2.2.2.2.1]
  exact h

theorem processAttachment_ok (r : ParseResult) (a : Attachment) (h : ProviderPipelineOk r) :
    ProviderPipelineOk (processAttachment r a) := by
  cases ha : isOpsgenie a
  · rw [processAttachment_skip r a ha]; exact h
  · rw [processAttachment_opsgenie r a ha]
    exact foldl_processField_ok _ _ _ (afterTitle_ok _ r h)

theorem foldl_processAttachment_ok (as : List Attachment) (r : ParseResult)
    (h : ProviderPipelineOk r) : ProviderPipelineOk (as.foldl processAttachment r) := by
  induction as generalizing r with
  | nil => exact h
  | cons a as ih => rw [List.foldl_cons]; exact ih _ (processAttachment_ok r a h)

theorem default_ok : ProviderPipelineOk {} := by
  unfold ProviderPipelineOk; simp

theorem ParseMessage_ok (m : Message) (d : String) : ProviderPipelineOk (ParseMessage m d).1 := by
  cases h : Contains m.Msg.Text d
  · rw [ParseMessage_not_done m d h]
    exact foldl_processAttachment_ok _ _ default_ok
  · rw [ParseMessage_done m d h]
    unfold ProviderPipelineOk; simp

theorem scanMessages_ok (d : String) (ms : List Message) :
    ProviderPipelineOk (scanMessages d ms).1 := by
  induction ms with
  | nil => exact default_ok
  | cons x xs ih =>
    rw [scanMessages_cons]
    split_ifs
    · exact ParseMessage_ok x d
    · exact ih

/-! ## The characters of `InstallationName` -/

theorem afterTitle_lower (title : String) (r : ParseResult) (h : InstallationLower r) :
    InstallationLower (afterTitle r (FindStringSubmatch titleRegex title)) := by
  rcases FindStringSubmatch_titleRegex_cases title with h0 | ⟨pre, id, src, inst, short, name,
    tail, hseg, _, e⟩
  · rw [h0]; exact h
  · rw [e]
    intro c hc
    exact hseg.2.2.1.2 c hc

theorem foldl_processField_lower (tp : List String) (fs : List AttachmentField)
    (r : ParseResult) (h : InstallationLower r) :
    InstallationLower (fs.foldl (processField tp) r) := by
  unfold InstallationLower
  rw [foldl_processField_InstallationName]
  exact h

theorem processAttachment_lower (r : ParseResult) (a : Attachment) (h : InstallationLower r) :
    InstallationLower (processAttachment r a) := by
  cases ha : isOpsgenie a
  · rw [processAttachment_skip r a ha]; exact h
  · rw [processAttachment_opsgenie r a ha]
    exact foldl_processField_lower _ _ _ (afterTitle_lower a.Title r h)

theorem foldl_processAttachment_lower (as : List Attachment) (r : ParseResult)
    (h : InstallationLower r) : InstallationLower (as.foldl processAttachment r) := by
  induction as generalizing r with
  | nil => exact h
  | cons a as ih => rw [List.foldl_cons]; exact ih _ (processAttachment_lower r a h)

theorem ParseMessage_lower (m : Message) (d : String) :
    InstallationLower (ParseMessage m d).1 := by
  cases h : Contains m.Msg.Text d
  · rw [ParseMessage_not_done m d h]
    exact foldl_processAttachment_lower _ _ (fun c hc => absurd hc (List.not_mem_nil _))
  · rw [ParseMessage_done m d h]
    exact fun c hc => absurd hc (List.not_mem_nil _)

theorem hash_mem_of_shape (title : String) (h : ContainsTitleShape title) :
    '#' ∈ title.data := by
  obtain ⟨pre, id, src, inst, short, name, tail, _, e⟩ := h
  rw [e]
  simp [titleChars]

/-! ## The claims -/

/-- C1: `ParseConversationHistory` returns `ParseMessage m doneString` for the first
message `m` of the history whose result has `IsAlert = true`, and the all-default
record when there is none; for an alert message `m` preceded by no alert, the result
on `h1 ++ m :: h2` is that of `m`, whatever `h2` is. -/
theorem parseConversationHistory_first_alert (doneString : String) :
    (∀ history : GetConversationHistoryResponse,
      ParseConversationHistory history doneString =
        match history.Messages.find? (fun m => (ParseMessage m doneString).1.IsAlert) with
        | some m => ParseMessage m doneString
        | none => ({}, none)) ∧
    (∀ (h1 h2 : List Message) (m : Message),
      (∀ x ∈ h1, (ParseMessage x doneString).1.IsAlert = false) →
      (ParseMessage m doneString).1.IsAlert = true →
      ParseConversationHistory ⟨h1 ++ m :: h2⟩ doneString = ParseMessage m doneString) ∧
    (∀ history : GetConversationHistoryResponse,
      (∀ x ∈ history.Messages, (ParseMessage x doneString).1.IsAlert = false) →
      ParseConversationHistory history doneString = ({}, none)) := by
  refine ⟨fun history => scanMessages_find doneString history.Messages, ?_, ?_⟩
  · intro h1 h2 m hpre hm
    unfold ParseConversationHistory
    rw [scanMessages_find]
    have hfind : (h1 ++ m :: h2).find? (fun m => (ParseMessage m doneString).1.IsAlert)
        = some m := by
      rw [List.find?_append, List.find?_eq_none.mpr (fun x hx => by simp [hpre x hx])]
      simp [List.find?_cons, hm]
    simp only [hfind]
  · intro history hnone
    unfold ParseConversationHistory
    rw [scanMessages_find]
    have hfind : history.Messages.find? (fun m => (ParseMessage m doneString).1.IsAlert)
        = none := List.find?_eq_none.mpr (fun x hx => by simp [hnone x hx])
    simp only [hfind]

set_option maxRecDepth 100000 in
/-- Witness of C1: the third message of a history is the first alert. -/
theorem parseConversationHistory_first_alert_witness :
    ParseConversationHistory
        ⟨[testPlainMessage, testDoneMessage] ++ testAlertMessage :: [workloadMessage]⟩ "[done]"
      = ParseMessage testAlertMessage "[done]" :=
  (parseConversationHistory_first_alert "[done]").2.1 [testPlainMessage, testDoneMessage]
    [workloadMessage] testAlertMessage (by decide) (by decide)

/-- C2: `ParseMessage` returns `IsDone = true` exactly when the text contains the done
marker as a substring, and then every other member of the result has its default,
whatever the attachments are. -/
theorem parseMessage_isDone (message : Message) (doneString : String) :
    ((ParseMessage message doneString).1.IsDone = true ↔
      doneString.data <:+: message.Msg.Text.data) ∧
    ((ParseMessage message doneString).1.IsDone = true →
      (ParseMessage message doneString).1 = { IsDone := true }) := by
  cases h : Contains message.Msg.Text doneString
  · have hno : ¬ doneString.data <:+: message.Msg.Text.data :=
      (Contains_eq_false_iff _ _).mp h
    have hd : (ParseMessage message doneString).1.IsDone = false := by
      rw [ParseMessage_not_done message doneString h]
      exact foldl_processAttachment_IsDone _ _
    simp [hd, hno]
  · have hyes : doneString.data <:+: message.Msg.Text.data := (Contains_iff _ _).mp h
    rw [ParseMessage_done message doneString h]
    simp [hyes]

set_option maxRecDepth 100000 in
/-- Witness of C2: the alert of the test, sent with the done marker in its text. -/
theorem parseMessage_isDone_witness :
    (ParseMessage doneAlertMessage "[done]").1 = { IsDone := true } :=
  (parseMessage_isDone doneAlertMessage "[done]").2 (by decide)

/-- C3: without the done marker in its text, a message gets `IsAlert = true` exactly
when one of its attachments has a `TitleLink` containing `https://opsg.in/`; when no
attachment has, the result is the all-default record. -/
theorem parseMessage_isAlert (message : Message) (doneString : String)
    (hdone : ¬ doneString.data <:+: message.Msg.Text.data) :
    ((ParseMessage message doneString).1.IsAlert = true ↔
      ∃ a ∈ message.Msg.Attachments, ("https://opsg.in/" : String).data <:+: a.TitleLink.data) ∧
    ((∀ a ∈ message.Msg.Attachments,
        ¬ ("https://opsg.in/" : String).data <:+: a.TitleLink.data) →
      (ParseMessage message doneString).1 = {}) := by
  have h : Contains message.Msg.Text doneString = false :=
    (Contains_eq_false_iff _ _).mpr hdone
  rw [ParseMessage_not_done message doneString h]
  constructor
  · rw [foldl_processAttachment_IsAlert]
    simp only [Bool.false_or, List.any_eq_true, isOpsgenie, Contains_iff]
  · intro hnone
    apply foldl_processAttachment_skip
    intro a ha
    exact (Contains_eq_false_iff _ _).mpr (hnone a ha)

set_option maxRecDepth 100000 in
/-- Witness of C3: the alert message of the test is an alert. -/
theorem parseMessage_isAlert_witness :
    (ParseMessage testAlertMessage "[done]").1.IsAlert = true ↔
      ∃ a ∈ testAlertMessage.Msg.Attachments,
        ("https://opsg.in/" : String).data <:+: a.TitleLink.data :=
  (parseMessage_isAlert testAlertMessage "[done]"
    ((Contains_eq_false_iff _ _).mp (by decide))).1

/-- C4: for a message without the done marker whose only Opsgenie attachment has the
title `#id: [src]: inst / short - name` (id decimal digits, src ASCII letters and
digits, inst lowercase letters, short lowercase letters and digits, name without a
line feed, all non-empty), `ParseMessage` returns `InstallationName = inst` and
`AlertName = name`. -/
theorem parseMessage_title_names (message : Message) (doneString : String)
    (a : Attachment) (id src inst short name : String)
    (hdone : ¬ doneString.data <:+: message.Msg.Text.data)
    (ha : OnlyOpsgenie message a)
    (htitle : a.Title =
      "#" ++ id ++ ": [" ++ src ++ "]: " ++ inst ++ " / " ++ short ++ " - " ++ name)
    (hid : id.data ≠ [] ∧ ∀ c ∈ id.data, c.isDigit = true)
    (hsrc : src.data ≠ [] ∧ ∀ c ∈ src.data, c.isAlphanum = true)
    (hinst : inst.data ≠ [] ∧ ∀ c ∈ inst.data, c.isLower = true)
    (hshort : short.data ≠ [] ∧ ∀ c ∈ short.data, (c.isLower || c.isDigit) = true)
    (hname : name.data ≠ [] ∧ '\n' ∉ name.data) :
    (ParseMessage message doneString).1.InstallationName = inst ∧
    (ParseMessage message doneString).1.AlertName = name := by
  rw [ParseMessage_single message doneString a hdone ha, htitle,
    FindStringSubmatch_title id src inst short name hid hsrc hinst hshort hname,
    foldl_processField_InstallationName, foldl_processField_AlertName]
  exact ⟨rfl, rfl⟩

set_option maxRecDepth 100000 in
/-- Witness of C4: the title of the test gives `anteater` and
`PrometheusPersistentVolumeSpaceTooLow`. -/
theorem parseMessage_title_names_witness :
    (ParseMessage testAlertMessage "[done]").1.InstallationName = "anteater" ∧
    (ParseMessage testAlertMessage "[done]").1.AlertName
      = "PrometheusPersistentVolumeSpaceTooLow" :=
  parseMessage_title_names testAlertMessage "[done]" testAttachment
    "4865" "Prometheus" "anteater" "anteater" "PrometheusPersistentVolumeSpaceTooLow"
    ((Contains_eq_false_iff _ _).mp (by decide))
    ⟨[], [], rfl, by simp, (Contains_iff _ _).mp (by decide), by simp⟩
    (by decide) (by decide) (by decide) (by decide) (by decide) (by decide)

/-- C5: for a message without the done marker, with exactly one Opsgenie attachment
that has exactly one field titled `Tags`, and `tags = getTags value`: `Provider` is
`aws` if `aws` is a tag, else `azure` if `azure` is a tag, else `kvm` if `kvm` is a
tag, else empty; `InstallationPipeline` is `stable` if `stable` is a tag, else
`testing` if `testing` is a tag, else empty. -/
theorem parseMessage_provider_pipeline (message : Message) (doneString : String)
    (a : Attachment) (value : String)
    (hdone : ¬ doneString.data <:+: message.Msg.Text.data)
    (ha : OnlyOpsgenie message a) (htags : OnlyTags a value) :
    (ParseMessage message doneString).1.Provider =
      (if "aws" ∈ getTags value then "aws"
       else if "azure" ∈ getTags value then "azure"
       else if "kvm" ∈ getTags value then "kvm"
       else "") ∧
    (ParseMessage message doneString).1.InstallationPipeline =
      (if "stable" ∈ getTags value then "stable"
       else if "testing" ∈ getTags value then "testing"
       else "") := by
  rw [ParseMessage_single message doneString a hdone ha]
  have h := foldl_processField_onlyTags (FindStringSubmatch titleRegex a.Title) a value
    (afterTitle {} (FindStringSubmatch titleRegex a.Title)) htags
  have hf := afterTitle_fields {} (FindStringSubmatch titleRegex a.Title)
  constructor
  · have hp := congrArg ParseResult.Provider h
    simp only [withoutPriority, tagsUpdate] at hp
    rw [hp, hf.2.2.2.1]
    simp only [sliceContains_iff]
  · have hp := congrArg ParseResult.InstallationPipeline h
    simp only [withoutPriority, tagsUpdate] at hp
    rw [hp, hf.2.2.2.2.1]
    simp only [sliceContains_iff]

set_option maxRecDepth 100000 in
/-- Witness of C5: the test message has provider `aws` and pipeline `stable`. -/
theorem parseMessage_provider_pipeline_witness :
    (ParseMessage testAlertMessage "[done]").1.Provider =
      (if "aws" ∈ getTags
          "PrometheusPersistentVolumeSpaceTooLow, anteater, atlas, aws, management_cluster, page, stable"
        then "aws"
       else if "azure" ∈ getTags
          "PrometheusPersistentVolumeSpaceTooLow, anteater, atlas, aws, management_cluster, page, stable"
        then "azure"
       else if "kvm" ∈ getTags
          "PrometheusPersistentVolumeSpaceTooLow, anteater, atlas, aws, management_cluster, page, stable"
        then "kvm"
       else "") ∧
    (ParseMessage testAlertMessage "[done]").1.InstallationPipeline =
      (if "stable" ∈ getTags
          "PrometheusPersistentVolumeSpaceTooLow, anteater, atlas, aws, management_cluster, page, stable"
        then "stable"
       else if "testing" ∈ getTags
          "PrometheusPersistentVolumeSpaceTooLow, anteater, atlas, aws, management_cluster, page, stable"
        then "testing"
       else "") :=
  parseMessage_provider_pipeline testAlertMessage "[done]" testAttachment
    "PrometheusPersistentVolumeSpaceTooLow, anteater, atlas, aws, management_cluster, page, stable"
    ((Contains_eq_false_iff _ _).mp (by decide))
    ⟨[], [], rfl, by simp, (Contains_iff _ _).mp (by decide), by simp⟩
    ⟨[{ Title := "Priority", Value := "P3" }],
      [{ Title := "Routed Teams", Value := "atlas, alerts_router_team" }], rfl,
      by decide, by decide⟩

/-- C6: for a message without the done marker, with exactly one Opsgenie attachment
that has exactly one field titled `Tags` (anywhere among its fields) and a title of
the expected shape with short-id segment `short`: `AffectsManagementCluster` holds
exactly when `management_cluster` is a tag, `AffectsWorkloadCluster` exactly when
`workload_cluster` is a tag, and `WorkloadClusterID` is `short` when
`workload_cluster` is a tag and empty otherwise. -/
theorem parseMessage_cluster_scope (message : Message) (doneString : String)
    (a : Attachment) (value : String) (id src inst short name : String)
    (hdone : ¬ doneString.data <:+: message.Msg.Text.data)
    (ha : OnlyOpsgenie message a) (htags : OnlyTags a value)
    (htitle : a.Title =
      "#" ++ id ++ ": [" ++ src ++ "]: " ++ inst ++ " / " ++ short ++ " - " ++ name)
    (hid : id.data ≠ [] ∧ ∀ c ∈ id.data, c.isDigit = true)
    (hsrc : src.data ≠ [] ∧ ∀ c ∈ src.data, c.isAlphanum = true)
    (hinst : inst.data ≠ [] ∧ ∀ c ∈ inst.data, c.isLower = true)
    (hshort : short.data ≠ [] ∧ ∀ c ∈ short.data, (c.isLower || c.isDigit) = true)
    (hname : name.data ≠ [] ∧ '\n' ∉ name.data) :
    ((ParseMessage message doneString).1.AffectsManagementCluster = true ↔
      "management_cluster" ∈ getTags value) ∧
    ((ParseMessage message doneString).1.AffectsWorkloadCluster = true ↔
      "workload_cluster" ∈ getTags value) ∧
    (ParseMessage message doneString).1.WorkloadClusterID =
      (if "workload_cluster" ∈ getTags value then short else "") := by
  rw [ParseMessage_single message doneString a hdone ha]
  have h := foldl_processField_onlyTags (FindStringSubmatch titleRegex a.Title) a value
    (afterTitle {} (FindStringSubmatch titleRegex a.Title)) htags
  have hf := afterTitle_fields {} (FindStringSubmatch titleRegex a.Title)
  have htp := FindStringSubmatch_title id src inst short name hid hsrc hinst hshort hname
  rw [← htitle] at htp
  refine ⟨?_, ?_, ?_⟩
  · have hp := congrArg ParseResult.AffectsManagementCluster h
    simp only [withoutPriority, tagsUpdate] at hp
    rw [hp, hf.2.2.2.2.2.1, ← sliceContains_iff]
    cases sliceContains (getTags value) "management_cluster" <;> simp
  · have hp := congrArg ParseResult.AffectsWorkloadCluster h
    simp only [withoutPriority, tagsUpdate] at hp
    rw [hp, hf.2.2.2.2.2.2.1, ← sliceContains_iff]
    cases sliceContains (getTags value) "workload_cluster" <;> simp
  · have hp := congrArg ParseResult.WorkloadClusterID h
    simp only [withoutPriority, tagsUpdate] at hp
    rw [hp, hf.2.2.2.2.2.2.2]
    simp only [sliceContains_iff, htp]
    by_cases hw : "workload_cluster" ∈ getTags value
    · simp [hw]
    · simp [hw]

set_option maxRecDepth 100000 in
/-- Witness of C6: with `workload_cluster` among the tags of the test alert, the
cluster id is the short-id segment `anteater` of its title. -/
theorem parseMessage_cluster_scope_witness :
    ((ParseMessage workloadMessage "[done]").1.AffectsManagementCluster = true ↔
      "management_cluster" ∈ getTags
        "PrometheusPersistentVolumeSpaceTooLow, anteater, atlas, aws, workload_cluster, page, stable") ∧
    ((ParseMessage workloadMessage "[done]").1.AffectsWorkloadCluster = true ↔
      "workload_cluster" ∈ getTags
        "PrometheusPersistentVolumeSpaceTooLow, anteater, atlas, aws, workload_cluster, page, stable") ∧
    (ParseMessage workloadMessage "[done]").1.WorkloadClusterID =
      (if "workload_cluster" ∈ getTags
          "PrometheusPersistentVolumeSpaceTooLow, anteater, atlas, aws, workload_cluster, page, stable"
        then "anteater" else "") :=
  parseMessage_cluster_scope workloadMessage "[done]" workloadAttachment
    "PrometheusPersistentVolumeSpaceTooLow, anteater, atlas, aws, workload_cluster, page, stable"
    "4865" "Prometheus" "anteater" "anteater" "PrometheusPersistentVolumeSpaceTooLow"
    ((Contains_eq_false_iff _ _).mp (by decide))
    ⟨[], [], rfl, by simp, (Contains_iff _ _).mp (by decide), by simp⟩
    ⟨[{ Title := "Priority", Value := "P3" }], [], rfl, by decide, by decide⟩
    (by decide) (by decide) (by decide) (by decide) (by decide) (by decide)

/-- C7: for a message without the done marker and with exactly one Opsgenie
attachment, `Priority` is the value of the last field of that attachment titled
`Priority`, and is empty when the attachment has no such field. -/
theorem parseMessage_priority (message : Message) (doneString : String) (a : Attachment)
    (hdone : ¬ doneString.data <:+: message.Msg.Text.data)
    (ha : OnlyOpsgenie message a) :
    (ParseMessage message doneString).1.Priority = lastPriority a.Fields := by
  rw [ParseMessage_single message doneString a hdone ha, foldl_processField_Priority,
    (afterTitle_fields {} (FindStringSubmatch titleRegex a.Title)).2.2.1]
  rfl

set_option maxRecDepth 100000 in
/-- Witness of C7: the test message has priority `P3`. -/
theorem parseMessage_priority_witness :
    (ParseMessage testAlertMessage "[done]").1.Priority = lastPriority testAttachment.Fields :=
  parseMessage_priority testAlertMessage "[done]" testAttachment
    ((Contains_eq_false_iff _ _).mp (by decide))
    ⟨[], [], rfl, by simp, (Contains_iff _ _).mp (by decide), by simp⟩

/-- C8: for every message and done marker, when the `WorkloadClusterID` of the result
of `ParseMessage` is non-empty, then `AffectsWorkloadCluster` and `IsAlert` are true
and some Opsgenie attachment of the message has a title matched by the title pattern
with that id as its short-id group; the same holds for the result of
`ParseConversationHistory`, for an attachment of some message of the history. -/
theorem workloadClusterID_invariant (message : Message)
    (history : GetConversationHistoryResponse) (doneString : String) :
    ((ParseMessage message doneString).1.WorkloadClusterID ≠ "" →
      (ParseMessage message doneString).1.AffectsWorkloadCluster = true ∧
      (ParseMessage message doneString).1.IsAlert = true ∧
      ∃ a ∈ message.Msg.Attachments,
        ("https://opsg.in/" : String).data <:+: a.TitleLink.data ∧
        ∃ whole src inst name : String,
          FindStringSubmatch titleRegex a.Title =
            [whole, src, inst, (ParseMessage message doneString).1.WorkloadClusterID, name]) ∧
    ((ParseConversationHistory history doneString).1.WorkloadClusterID ≠ "" →
      (ParseConversationHistory history doneString).1.AffectsWorkloadCluster = true ∧
      (ParseConversationHistory history doneString).1.IsAlert = true ∧
      ∃ m ∈ history.Messages, ∃ a ∈ m.Msg.Attachments,
        ("https://opsg.in/" : String).data <:+: a.TitleLink.data ∧
        ∃ whole src inst name : String,
          FindStringSubmatch titleRegex a.Title =
            [whole, src, inst,
              (ParseConversationHistory history doneString).1.WorkloadClusterID, name]) := by
  refine ⟨ParseMessage_inv message doneString, ?_⟩
  unfold ParseConversationHistory
  rw [scanMessages_find]
  cases hfind : history.Messages.find? (fun m => (ParseMessage m doneString).1.IsAlert) with
  | none => exact fun hne => absurd rfl hne
  | some m =>
    intro hne
    have hm : m ∈ history.Messages := List.mem_of_find?_eq_some hfind
    obtain ⟨h1, h2, h3⟩ := ParseMessage_inv m doneString hne
    exact ⟨h1, h2, m, hm, h3⟩

set_option maxRecDepth 100000 in
/-- Witness of C8: the cluster id of the workload alert is set, so the alert carries
all that the invariant promises. -/
theorem workloadClusterID_invariant_witness :
    (ParseMessage workloadMessage "[done]").1.AffectsWorkloadCluster = true ∧
    (ParseMessage workloadMessage "[done]").1.IsAlert = true ∧
    ∃ a ∈ workloadMessage.Msg.Attachments,
      ("https://opsg.in/" : String).data <:+: a.TitleLink.data ∧
      ∃ whole src inst name : String,
        FindStringSubmatch titleRegex a.Title =
          [whole, src, inst, (ParseMessage workloadMessage "[done]").1.WorkloadClusterID, name] :=
  (workloadClusterID_invariant workloadMessage ⟨[]⟩ "[done]").1 (by decide)

/-- C9: `getTags` undoes joining with `", "`: for a non-empty list of strings none of
which contains a comma or starts with a whitespace character (`\t`, `\n`, `\f`, `\r`
or a space), `getTags` of the strings joined by `", "` is that list, in order, with
duplicates and case kept. -/
theorem getTags_join_roundtrip (tags : List String) (hne : tags ≠ [])
    (hcomma : ∀ t ∈ tags, ',' ∉ t.data)
    (hspace : ∀ t ∈ tags, ∀ c, t.data.head? = some c → c ∉ ['\t', '\n', '\x0c', '\r', ' ']) :
    getTags (Join tags ", ") = tags :=
  getTags_Join tags hne ⟨hcomma, hspace⟩

/-- Witness of C9: `foo, bar, baz` gives `foo`, `bar`, `baz`. -/
theorem getTags_join_roundtrip_witness :
    getTags (Join ["foo", "bar", "baz"] ", ") = ["foo", "bar", "baz"] :=
  getTags_join_roundtrip ["foo", "bar", "baz"] (by decide) (by decide) (by decide)

/-- C10: `ParseMessage` and `ParseConversationHistory` always return a nil error. -/
theorem parse_error_nil (message : Message) (history : GetConversationHistoryResponse)
    (doneString : String) :
    (ParseMessage message doneString).2 = none ∧
    (ParseConversationHistory history doneString).2 = none :=
  ⟨ParseMessage_snd message doneString, scanMessages_snd doneString history.Messages⟩

/-- C11, as stated, fails: the message of the test "Message with done string" has no
attachments, and with the marker `[done]` its result is not the all-default record. -/
theorem parseMessage_no_attachments_counterexample :
    testDoneMessage.Msg.Attachments = [] ∧
    (ParseMessage testDoneMessage "[done]").1 ≠ {} := by
  decide

/-- C11, amended: for a message with no attachments, `ParseMessage` returns the
all-default record when the text does not contain the done marker, and the record
with only `IsDone = true` when it does. -/
theorem parseMessage_no_attachments (message : Message) (doneString : String)
    (hatt : message.Msg.Attachments = []) :
    (¬ doneString.data <:+: message.Msg.Text.data →
      (ParseMessage message doneString).1 = {}) ∧
    (doneString.data <:+: message.Msg.Text.data →
      (ParseMessage message doneString).1 = { IsDone := true }) := by
  constructor
  · intro h
    rw [ParseMessage_not_done message doneString ((Contains_eq_false_iff _ _).mpr h), hatt]
    rfl
  · intro h
    rw [ParseMessage_done message doneString ((Contains_iff _ _).mpr h)]

set_option maxRecDepth 100000 in
/-- Witness of C11, amended: the plain message of the test gives the default record. -/
theorem parseMessage_no_attachments_witness :
    (ParseMessage testPlainMessage "[done]").1 = {} :=
  (parseMessage_no_attachments testPlainMessage "[done]" rfl).1
    ((Contains_eq_false_iff _ _).mp (by decide))

set_option maxRecDepth 100000 in
/-- C13, the code at the failing input: a history whose first message carries the done
marker and whose second message is the alert still returns the alert. -/
theorem parseConversationHistory_done_not_honoured :
    ("[done]" : String).data <:+: testDoneMessage.Msg.Text.data ∧
    (ParseConversationHistory ⟨[testDoneMessage, testAlertMessage]⟩ "[done]").1.IsAlert
      = true :=
  ⟨(Contains_iff _ _).mp (by decide), by decide⟩

/-- C14, the code at the failing input: the space before a comma stays in the tag. -/
theorem getTags_keeps_whitespace :
    getTags "foo , bar" = ["foo ", "bar"] ∧ ' ' ∈ ("foo " : String).data := by
  decide

/-- C16: for every message, history and done marker, the `Provider` of the result of
`ParseMessage` and of `ParseConversationHistory` is one of the empty string, `aws`,
`azure`, `kvm`, and the `InstallationPipeline` is one of the empty string, `stable`,
`testing`. -/
theorem provider_pipeline_values (message : Message)
    (history : GetConversationHistoryResponse) (doneString : String) :
    ((ParseMessage message doneString).1.Provider ∈ ["", "aws", "azure", "kvm"] ∧
      (ParseMessage message doneString).1.InstallationPipeline ∈ ["", "stable", "testing"]) ∧
    ((ParseConversationHistory history doneString).1.Provider ∈ ["", "aws", "azure", "kvm"] ∧
      (ParseConversationHistory history doneString).1.InstallationPipeline
        ∈ ["", "stable", "testing"]) :=
  ⟨ParseMessage_ok message doneString, scanMessages_ok doneString history.Messages⟩

/-- C17: a message whose text contains the done marker neither stops nor changes the
scan: removing one such message, or all of them, from the history leaves the result
of `ParseConversationHistory` unchanged, and the returned record never has
`IsDone = true`. -/
theorem parseConversationHistory_skips_done (doneString : String) :
    (∀ (h1 h2 : List Message) (m : Message),
      doneString.data <:+: m.Msg.Text.data →
      ParseConversationHistory ⟨h1 ++ m :: h2⟩ doneString =
        ParseConversationHistory ⟨h1 ++ h2⟩ doneString) ∧
    (∀ history : GetConversationHistoryResponse,
      ParseConversationHistory
          ⟨history.Messages.filter (fun m => !Contains m.Msg.Text doneString)⟩ doneString =
        ParseConversationHistory history doneString) ∧
    (∀ history : GetConversationHistoryResponse,
      (ParseConversationHistory history doneString).1.IsDone = false) :=
  ⟨fun h1 h2 m h => scanMessages_remove_done doneString h1 h2 m ((Contains_iff _ _).mpr h),
    fun history => scanMessages_filter_done doneString history.Messages,
    fun history => scanMessages_IsDone doneString history.Messages⟩

set_option maxRecDepth 100000 in
/-- Witness of C17: the done message of the test between two other messages. -/
theorem parseConversationHistory_skips_done_witness :
    ParseConversationHistory ⟨[testPlainMessage] ++ testDoneMessage :: [testAlertMessage]⟩
        "[done]" =
      ParseConversationHistory ⟨[testPlainMessage] ++ [testAlertMessage]⟩ "[done]" :=
  (parseConversationHistory_skips_done "[done]").1 [testPlainMessage] [testAlertMessage]
    testDoneMessage ((Contains_iff _ _).mp (by decide))

/-- C18: irrelevant input is ignored by `ParseMessage`: an attachment whose
`TitleLink` does not contain `https://opsg.in/` can be added or removed, and so can,
in any attachment, a field titled neither `Priority` nor `Tags`, without changing
what `ParseMessage` returns. -/
theorem parseMessage_ignores_irrelevant (text doneString : String)
    (pre post : List Attachment) :
    (∀ a : Attachment, ¬ ("https://opsg.in/" : String).data <:+: a.TitleLink.data →
      ParseMessage { Msg := { Text := text, Attachments := pre ++ a :: post } } doneString =
        ParseMessage { Msg := { Text := text, Attachments := pre ++ post } } doneString) ∧
    (∀ (title link : String) (before after : List AttachmentField) (f : AttachmentField),
      f.Title ≠ "Priority" → f.Title ≠ "Tags" →
      ParseMessage
          { Msg :=
            { Text := text
              Attachments :=
                pre ++ { Title := title, TitleLink := link, Fields := before ++ f :: after }
                  :: post } } doneString =
        ParseMessage
          { Msg :=
            { Text := text
              Attachments :=
                pre ++ { Title := title, TitleLink := link, Fields := before ++ after }
                  :: post } } doneString) := by
  cases hd : Contains text doneString
  · constructor
    · intro a ha
      rw [ParseMessage_not_done _ _ hd, ParseMessage_not_done _ _ hd]
      simp only [List.foldl_append, List.foldl_cons]
      rw [processAttachment_skip _ a ((Contains_eq_false_iff _ _).mpr ha)]
    · intro title link before after f h1 h2
      rw [ParseMessage_not_done _ _ hd, ParseMessage_not_done _ _ hd]
      simp only [List.foldl_append, List.foldl_cons]
      rw [processAttachment_other_field _ title link before after f h1 h2]
  · constructor
    · intro a _
      rw [ParseMessage_done _ _ hd, ParseMessage_done _ _ hd]
    · intro title link before after f _ _
      rw [ParseMessage_done _ _ hd, ParseMessage_done _ _ hd]

set_option maxRecDepth 100000 in
/-- Witness of C18: the field `Routed Teams` of the alert of the test can be left
out. -/
theorem parseMessage_ignores_irrelevant_witness :
    ParseMessage
        { Msg :=
          { Text := ""
            Attachments :=
              [] ++ { Title := testAttachment.Title, TitleLink := testAttachment.TitleLink,
                      Fields :=
                        [ { Title := "Priority", Value := "P3" },
                          { Title := "Tags", Value := "aws, stable" } ] ++
                          { Title := "Routed Teams", Value := "atlas" } :: [] } :: [] } }
        "[done]" =
      ParseMessage
        { Msg :=
          { Text := ""
            Attachments :=
              [] ++ { Title := testAttachment.Title, TitleLink := testAttachment.TitleLink,
                      Fields :=
                        [ { Title := "Priority", Value := "P3" },
                          { Title := "Tags", Value := "aws, stable" } ] ++ [] } :: [] } }
        "[done]" :=
  (parseMessage_ignores_irrelevant "" "[done]" [] []).2 testAttachment.Title
    testAttachment.TitleLink
    [{ Title := "Priority", Value := "P3" }, { Title := "Tags", Value := "aws, stable" }] []
    { Title := "Routed Teams", Value := "atlas" } (by decide) (by decide)

/-- C20: with the empty string as done marker every message is classified as done:
`ParseMessage` returns the record with only `IsDone = true`, and
`ParseConversationHistory` returns the all-default record for every history, also
one with alert messages. -/
theorem empty_marker_all_done (message : Message)
    (history : GetConversationHistoryResponse) :
    ParseMessage message "" = ({ IsDone := true }, none) ∧
    ParseConversationHistory history "" = ({}, none) := by
  constructor
  · exact ParseMessage_done message "" (Contains_empty _)
  · unfold ParseConversationHistory
    induction history.Messages with
    | nil => rfl
    | cons m ms ih => rw [scanMessages_cons_done "" m ms (Contains_empty _)]; exact ih

set_option maxRecDepth 100000 in
/-- C12, as stated, fails: with the alert of the test followed by a second Opsgenie
attachment, the result differs from the result with only the last one. -/
theorem parseMessage_last_attachment_counterexample :
    twoAlertsMessage.Msg.Attachments.filter isOpsgenie = [testAttachment, bareAttachment] ∧
    lastAlertMessage.Msg.Attachments = [bareAttachment] ∧
    (ParseMessage twoAlertsMessage "[done]").1 ≠ (ParseMessage lastAlertMessage "[done]").1 ∧
    (ParseMessage twoAlertsMessage "[done]").1.Priority = "P3" ∧
    (ParseMessage lastAlertMessage "[done]").1.Priority = "" := by
  decide

/-- C12, amended: for a message without the done marker, the last Opsgenie attachment
`a` is processed on top of the record left by the attachments before it. The values
it sets are returned: `IsAlert`, `InstallationName` and `AlertName` when its title
matches the pattern, `Priority` when it has a field titled `Priority`. The values it
does not set are those of the earlier attachments: the names when its title does not
match, `Priority` when it has no such field, the values taken from tags when it has
no field titled `Tags`. -/
theorem parseMessage_last_attachment (message : Message) (doneString : String)
    (pre post : List Attachment) (a : Attachment)
    (hdone : ¬ doneString.data <:+: message.Msg.Text.data)
    (hatts : message.Msg.Attachments = pre ++ a :: post)
    (ha : ("https://opsg.in/" : String).data <:+: a.TitleLink.data)
    (hpost : ∀ x ∈ post, ¬ ("https://opsg.in/" : String).data <:+: x.TitleLink.data) :
    (ParseMessage message doneString).1 =
      processAttachment
        (ParseMessage { Msg := { Text := message.Msg.Text, Attachments := pre } } doneString).1 a ∧
    (ParseMessage message doneString).1.IsAlert = true ∧
    (∀ whole src inst short name : String,
      FindStringSubmatch titleRegex a.Title = [whole, src, inst, short, name] →
      (ParseMessage message doneString).1.InstallationName = inst ∧
      (ParseMessage message doneString).1.AlertName = name) ∧
    (FindStringSubmatch titleRegex a.Title = [] →
      (ParseMessage message doneString).1.InstallationName =
        (ParseMessage { Msg := { Text := message.Msg.Text, Attachments := pre } }
          doneString).1.InstallationName ∧
      (ParseMessage message doneString).1.AlertName =
        (ParseMessage { Msg := { Text := message.Msg.Text, Attachments := pre } }
          doneString).1.AlertName) ∧
    ((∃ f ∈ a.Fields, f.Title = "Priority") →
      (ParseMessage message doneString).1.Priority = lastPriority a.Fields) ∧
    ((∀ f ∈ a.Fields, f.Title ≠ "Priority") →
      (ParseMessage message doneString).1.Priority =
        (ParseMessage { Msg := { Text := message.Msg.Text, Attachments := pre } }
          doneString).1.Priority) ∧
    ((∀ f ∈ a.Fields, f.Title ≠ "Tags") →
      (ParseMessage message doneString).1.Provider =
        (ParseMessage { Msg := { Text := message.Msg.Text, Attachments := pre } }
          doneString).1.Provider ∧
      (ParseMessage message doneString).1.InstallationPipeline =
        (ParseMessage { Msg := { Text := message.Msg.Text, Attachments := pre } }
          doneString).1.InstallationPipeline ∧
      (ParseMessage message doneString).1.AffectsManagementCluster =
        (ParseMessage { Msg := { Text := message.Msg.Text, Attachments := pre } }
          doneString).1.AffectsManagementCluster ∧
      (ParseMessage message doneString).1.AffectsWorkloadCluster =
        (ParseMessage { Msg := { Text := message.Msg.Text, Attachments := pre } }
          doneString).1.AffectsWorkloadCluster ∧
      (ParseMessage message doneString).1.WorkloadClusterID =
        (ParseMessage { Msg := { Text := message.Msg.Text, Attachments := pre } }
          doneString).1.WorkloadClusterID) := by
  have hc : Contains message.Msg.Text doneString = false :=
    (Contains_eq_false_iff _ _).mpr hdone
  have hearlier :
      (ParseMessage { Msg := { Text := message.Msg.Text, Attachments := pre } } doneString).1 =
        pre.foldl processAttachment {} := by
    rw [ParseMessage_not_done { Msg := { Text := message.Msg.Text, Attachments := pre } }
      doneString hc]
  have hop : isOpsgenie a = true := (Contains_iff _ _).mpr ha
  have hres : (ParseMessage message doneString).1 =
      processAttachment (pre.foldl processAttachment {}) a := by
    rw [ParseMessage_not_done message doneString hc, hatts]
    show (pre ++ a :: post).foldl processAttachment {} = _
    rw [List.foldl_append, List.foldl_cons,
      foldl_processAttachment_skip post _ (fun x hx => (Contains_eq_false_iff _ _).mpr (hpost x hx))]
  rw [hearlier, hres, processAttachment_opsgenie _ a hop]
  generalize pre.foldl processAttachment {} = r
  have hf := afterTitle_fields r (FindStringSubmatch titleRegex a.Title)
  refine ⟨rfl, ?_, ?_, ?_, ?_, ?_, ?_⟩
  · rw [foldl_processField_IsAlert]; exact hf.1
  · intro whole src inst short name htp
    rw [foldl_processField_InstallationName, foldl_processField_AlertName, htp]
    exact ⟨rfl, rfl⟩
  · intro htp
    rw [foldl_processField_InstallationName, foldl_processField_AlertName, htp]
    exact ⟨rfl, rfl⟩
  · intro hp
    exact foldl_processField_Priority_some _ _ _ hp
  · intro hp
    rw [foldl_processField_Priority_none _ _ _ hp]
    exact hf.2.2.1
  · intro ht
    have hw := foldl_processField_noTags (FindStringSubmatch titleRegex a.Title) a.Fields
      (afterTitle r (FindStringSubmatch titleRegex a.Title)) ht
    refine ⟨?_, ?_, ?_, ?_, ?_⟩
    · exact (congrArg ParseResult.Provider hw).trans hf.2.2.2.1
    · exact (congrArg ParseResult.InstallationPipeline hw).trans hf.2.2.2.2.1
    · exact (congrArg ParseResult.AffectsManagementCluster hw).trans hf.2.2.2.2.2.1
    · exact (congrArg ParseResult.AffectsWorkloadCluster hw).trans hf.2.2.2.2.2.2.1
    · exact (congrArg ParseResult.WorkloadClusterID hw).trans hf.2.2.2.2.2.2.2

set_option maxRecDepth 100000 in
/-- Witness of C12, amended: the second Opsgenie attachment of `twoAlertsMessage` is
processed on top of the record of the alert of the test. -/
theorem parseMessage_last_attachment_witness :
    (ParseMessage twoAlertsMessage "[done]").1 =
      processAttachment (ParseMessage testAlertMessage "[done]").1 bareAttachment :=
  (parseMessage_last_attachment twoAlertsMessage "[done]" [testAttachment] [] bareAttachment
    ((Contains_eq_false_iff _ _).mp (by decide)) rfl ((Contains_iff _ _).mp (by decide))
    (by simp)).1

set_option maxRecDepth 100000 in
/-- C15, as stated, fails: with the digit `2` in the installation name of the title
the pattern does not match, and `InstallationName` and `AlertName` stay empty. -/
theorem parseMessage_installation_digit_counterexample :
    (ParseMessage digitMessage "[done]").1.InstallationName = "" ∧
    (ParseMessage digitMessage "[done]").1.AlertName = "" ∧
    ¬ ((ParseMessage digitMessage "[done]").1.InstallationName = "anteater2" ∧
      (ParseMessage digitMessage "[done]").1.AlertName
        = "PrometheusPersistentVolumeSpaceTooLow") := by
  decide

/-- C15, amended: the title pattern accepts installation names made of lowercase
letters only. For a title `#id: [src]: inst / short - name` with `inst` a non-empty
string of lowercase letters, a message without the done marker whose only Opsgenie
attachment carries that title gets `InstallationName = inst` and `AlertName = name`;
and whatever the message, every character of the returned `InstallationName` is a
lowercase letter, so a name with a digit is never returned. -/
theorem parseMessage_installation_lowercase (message : Message) (doneString : String) :
    (∀ (a : Attachment) (id src inst short name : String),
      ¬ doneString.data <:+: message.Msg.Text.data →
      OnlyOpsgenie message a →
      a.Title = "#" ++ id ++ ": [" ++ src ++ "]: " ++ inst ++ " / " ++ short ++ " - " ++ name →
      (id.data ≠ [] ∧ ∀ c ∈ id.data, c.isDigit = true) →
      (src.data ≠ [] ∧ ∀ c ∈ src.data, c.isAlphanum = true) →
      (inst.data ≠ [] ∧ ∀ c ∈ inst.data, c.isLower = true) →
      (short.data ≠ [] ∧ ∀ c ∈ short.data, (c.isLower || c.isDigit) = true) →
      (name.data ≠ [] ∧ '\n' ∉ name.data) →
      (ParseMessage message doneString).1.InstallationName = inst ∧
      (ParseMessage message doneString).1.AlertName = name) ∧
    (∀ c ∈ (ParseMessage message doneString).1.InstallationName.data, c.isLower = true) := by
  refine ⟨?_, ParseMessage_lower message doneString⟩
  intro a id src inst short name hdone ha htitle hid hsrc hinst hshort hname
  rw [ParseMessage_single message doneString a hdone ha, htitle,
    FindStringSubmatch_title id src inst short name hid hsrc hinst hshort hname,
    foldl_processField_InstallationName, foldl_processField_AlertName]
  exact ⟨rfl, rfl⟩

set_option maxRecDepth 100000 in
/-- Witness of C15, amended: the title of the test, whose installation name is made
of lowercase letters. -/
theorem parseMessage_installation_lowercase_witness :
    (ParseMessage testAlertMessage "[done]").1.InstallationName = "anteater" ∧
    (ParseMessage testAlertMessage "[done]").1.AlertName
      = "PrometheusPersistentVolumeSpaceTooLow" :=
  (parseMessage_installation_lowercase testAlertMessage "[done]").1 testAttachment
    "4865" "Prometheus" "anteater" "anteater" "PrometheusPersistentVolumeSpaceTooLow"
    ((Contains_eq_false_iff _ _).mp (by decide))
    ⟨[], [], rfl, by simp, (Contains_iff _ _).mp (by decide), by simp⟩
    (by decide) (by decide) (by decide) (by decide) (by decide) (by decide)

set_option maxRecDepth 100000 in
/-- C19, as stated, fails: the title of `prefixedMessage` has extra text before the `#`,
so as a whole it is not of the expected shape, yet the pattern matches inside it and
`InstallationName` and `AlertName` are set. -/
theorem parseMessage_unmatched_title_counterexample :
    (¬ ∃ id src inst short name : List Char,
      ("Alert #4865: [Prometheus]: anteater / anteater - PrometheusPersistentVolumeSpaceTooLow"
        : String).data = titleChars id src inst short name) ∧
    (ParseMessage prefixedMessage "[done]").1.InstallationName = "anteater" ∧
    (ParseMessage prefixedMessage "[done]").1.AlertName
      = "PrometheusPersistentVolumeSpaceTooLow" ∧
    (ParseMessage prefixedMessage "[done]").1.InstallationName ≠ "" := by
  refine ⟨?_, by decide, by decide, by decide⟩
  rintro ⟨id, src, inst, short, name, e⟩
  have h1 : List.head? (titleChars id src inst short name) = some '#' := rfl
  have h2 : List.head?
      ("Alert #4865: [Prometheus]: anteater / anteater - PrometheusPersistentVolumeSpaceTooLow"
        : String).data = some 'A' := by decide
  rw [e, h1] at h2
  exact absurd h2 (by decide)

/-- C19, amended: for a message without the done marker whose only Opsgenie attachment
has a title that contains no text of the shape `#id: [src]: inst / short - name`,
`ParseMessage` returns `IsAlert = true` with `InstallationName`, `AlertName` and
`WorkloadClusterID` empty, while `Priority` is the value of the last field titled
`Priority` and, with exactly one field titled `Tags`, the values taken from the tags
are set as usual. -/
theorem parseMessage_unmatched_title (message : Message) (doneString : String)
    (a : Attachment)
    (hdone : ¬ doneString.data <:+: message.Msg.Text.data)
    (ha : OnlyOpsgenie message a) (hshape : ¬ ContainsTitleShape a.Title) :
    (ParseMessage message doneString).1.IsAlert = true ∧
    (ParseMessage message doneString).1.InstallationName = "" ∧
    (ParseMessage message doneString).1.AlertName = "" ∧
    (ParseMessage message doneString).1.WorkloadClusterID = "" ∧
    (ParseMessage message doneString).1.Priority = lastPriority a.Fields ∧
    (∀ value : String, OnlyTags a value →
      (ParseMessage message doneString).1.Provider =
        (if "aws" ∈ getTags value then "aws"
         else if "azure" ∈ getTags value then "azure"
         else if "kvm" ∈ getTags value then "kvm"
         else "") ∧
      (ParseMessage message doneString).1.InstallationPipeline =
        (if "stable" ∈ getTags value then "stable"
         else if "testing" ∈ getTags value then "testing"
         else "") ∧
      ((ParseMessage message doneString).1.AffectsManagementCluster = true ↔
        "management_cluster" ∈ getTags value) ∧
      ((ParseMessage message doneString).1.AffectsWorkloadCluster = true ↔
        "workload_cluster" ∈ getTags value)) := by
  have htp := FindStringSubmatch_titleRegex_none a.Title hshape
  rw [ParseMessage_single message doneString a hdone ha, htp]
  have hf := afterTitle_fields {} ([] : List String)
  refine ⟨?_, ?_, ?_, ?_, ?_, ?_⟩
  · rw [foldl_processField_IsAlert]; exact hf.1
  · rw [foldl_processField_InstallationName]; rfl
  · rw [foldl_processField_AlertName]; rfl
  · rw [foldl_processField_WorkloadClusterID [] _ _ (by decide)]; rfl
  · rw [foldl_processField_Priority, hf.2.2.1]; rfl
  · intro value htags
    have h := foldl_processField_onlyTags [] a value (afterTitle {} []) htags
    refine ⟨?_, ?_, ?_, ?_⟩
    · have hp := congrArg ParseResult.Provider h
      simp only [withoutPriority, tagsUpdate] at hp
      rw [hp, hf.2.2.2.1]
      simp only [sliceContains_iff]
    · have hp := congrArg ParseResult.InstallationPipeline h
      simp only [withoutPriority, tagsUpdate] at hp
      rw [hp, hf.2.2.2.2.1]
      simp only [sliceContains_iff]
    · have hp := congrArg ParseResult.AffectsManagementCluster h
      simp only [withoutPriority, tagsUpdate] at hp
      rw [hp, hf.2.2.2.2.2.1, ← sliceContains_iff]
      cases sliceContains (getTags value) "management_cluster" <;> simp
    · have hp := congrArg ParseResult.AffectsWorkloadCluster h
      simp only [withoutPriority, tagsUpdate] at hp
      rw [hp, hf.2.2.2.2.2.2.1, ← sliceContains_iff]
      cases sliceContains (getTags value) "workload_cluster" <;> simp

set_option maxRecDepth 100000 in
/-- Witness of C19, amended: the alert of the test with the title `Disk full`. -/
theorem parseMessage_unmatched_title_witness :
    (ParseMessage untitledMessage "[done]").1.IsAlert = true ∧
    (ParseMessage untitledMessage "[done]").1.InstallationName = "" ∧
    (ParseMessage untitledMessage "[done]").1.AlertName = "" ∧
    (ParseMessage untitledMessage "[done]").1.WorkloadClusterID = "" ∧
    (ParseMessage untitledMessage "[done]").1.Priority
      = lastPriority testAttachment.Fields :=
  have h := parseMessage_unmatched_title untitledMessage "[done]"
    { testAttachment with Title := "Disk full" }
    ((Contains_eq_false_iff _ _).mp (by decide))
    ⟨[], [], rfl, by simp, (Contains_iff _ _).mp (by decide), by simp⟩
    (fun hs => absurd (hash_mem_of_shape _ hs) (by decide))
  ⟨h.1, h.2.1, h.2.2.1, h.2.2.2.1, h.2.2.2.2.1⟩

end Messageparser
